import Mathlib

/-!
Verification of the contact identity-resolution and deduplication core of a
small CRM application (single source file `app.py`).

The embedding models Python strings as Lean `String` (a list of `Char`);
Python `None` for optional text values is modelled with `Option String`.
Character-level operations (`str.lower`, `str.strip`, regular-expression
substitutions) are embedded as executable functions on `List Char` whose
behaviour matches CPython on the character sets the application manipulates
(ASCII case mapping; the documented Python whitespace class).
-/

namespace CRM

/-- Python's whitespace class for `str.strip` and the regex class `\s`
(restricted to ASCII): space, tab, newline, carriage return, vertical tab,
form feed. -/
def pyIsSpace (c : Char) : Bool :=
  c = ' ' || c = '\t' || c = '\n' || c = '\r' || c = '\x0b' || c = '\x0c'

/-- Python `str.strip()` on the character list. -/
def pyStripL (l : List Char) : List Char :=
  ((l.dropWhile pyIsSpace).reverse.dropWhile pyIsSpace).reverse

/-- Python `str.rstrip()` on the character list. -/
def pyRStripL (l : List Char) : List Char :=
  (l.reverse.dropWhile pyIsSpace).reverse

/-- Python `str.lower()` (ASCII case mapping, which is all the application's
identity logic relies on). -/
def pyLowerL (l : List Char) : List Char :=
  l.map Char.toLower

/-- Helper of `collapseRuns`: the flag records whether the previous
character was part of a run (so the replacement was already emitted). -/
def collapseRunsAux (p : Char → Bool) (rep : List Char) : Bool → List Char → List Char
  | _, [] => []
  | inRun, c :: cs =>
    if p c then (if inRun then [] else rep) ++ collapseRunsAux p rep true cs
    else c :: collapseRunsAux p rep false cs

/-- Replaces every maximal run of characters satisfying `p` by `rep`.
This is `re.sub(r"X+", rep, s)` for a character class `X`. -/
def collapseRuns (p : Char → Bool) (rep : List Char) (l : List Char) : List Char :=
  collapseRunsAux p rep false l

/-- String wrappers. -/
def pyStrip (s : String) : String := ⟨pyStripL s.data⟩

def pyRStrip (s : String) : String := ⟨pyRStripL s.data⟩

def pyLower (s : String) : String := ⟨pyLowerL s.data⟩

/-- Python truthiness for an optional string (`None` and `""` are falsy). -/
def otruthy : Option String → Bool
  | none => false
  | some s => s ≠ ""

/-- The Python idiom `x or None` for producing a NULL-able column value. -/
def noneIfEmpty (s : String) : Option String :=
  if s = "" then none else some s

/-- The Python idiom `a or b` where `a` is an optional string and `b` a
string default. -/
def pyOr (a : Option String) (b : String) : String :=
  match a with
  | none => b
  | some s => if s = "" then b else s

/-- The Python idiom `a or b` on two strings. -/
def pyOrStr (a b : String) : String := if a = "" then b else a

/-- The Python idiom `x or None` applied to an already-optional value. -/
def pyOrNone (a : Option String) : Option String :=
  if otruthy a then a else none

/-!  Field Normalizer (`app.py` lines 257-289).  -/

/-- Source `_norm_text` (app.py:257): `str(v).strip().lower()` followed by
`re.sub(r"\s+", " ", s)`; `None` yields the empty string. -/
def _norm_text (v : Option String) : String :=
  match v with
  | none => ""
  | some s => ⟨collapseRuns pyIsSpace [' '] (pyLowerL (pyStripL s.data))⟩

/-- Legal-entity suffix words removed by `_norm_company`
(the regex alternation in app.py:271, in source order). -/
def legalSuffixWords : List (List Char) :=
  ["inc".data, "incorporated".data, "llc".data, "ltd".data, "co".data,
   "corp".data, "corporation".data, "company".data, "gmbh".data,
   "sarl".data, "sa".data, "plc".data]

/-- Replaces the single character `a` by the string `rep` (Python
`str.replace` with a one-character needle). -/
def replaceChar (a : Char) (rep : List Char) (l : List Char) : List Char :=
  l.flatMap (fun c => if c = a then rep else [c])

/-- Removal of the legal-suffix words, embedding
`re.sub(r"\b(inc|…|plc)\b", "", s)` on a string whose alphabet is
`[a-z0-9 ]`: on such a string the word boundaries `\b` delimit exactly the
maximal space-separated tokens, so the substitution removes exactly the
tokens equal to a listed word (tokens merely containing one, such as
`co2` or `inc5`, have no boundary and are kept). -/
def removeSuffixWords (l : List Char) : List (List Char) :=
  (l.splitOn ' ').filter (fun w => ¬ legalSuffixWords.contains w)

/-- Joins token lists with single spaces (the final
`re.sub(r"\s+", " ", s).strip()` of `_norm_company` collapses whatever
spacing the removal left into exactly this). -/
def joinSpace : List (List Char) → List Char
  | [] => []
  | [w] => w
  | w :: ws => w ++ ' ' :: joinSpace ws

/-- Source `_norm_company` (app.py:265): `_norm_text`, replace `&` by
" and ", delete every character outside `[a-z0-9 ]`, remove legal-entity
suffix words, collapse whitespace and strip. -/
def _norm_company (v : Option String) : String :=
  let s := _norm_text v
  if s = "" then ""
  else
    let l1 := replaceChar '&' " and ".data s.data
    let l2 := l1.filter (fun c => ('a' ≤ c && c ≤ 'z') || ('0' ≤ c && c ≤ '9') || c = ' ')
    let l3 := joinSpace (removeSuffixWords l2)
    ⟨pyStripL (collapseRuns pyIsSpace [' '] l3)⟩

/-- Source `_norm_email` (app.py:276): `_norm_text`, then empty unless the
result contains an `@`. -/
def _norm_email (v : Option String) : String :=
  let s := _norm_text v
  if s.data.contains '@' then s else ""

/-- True when `pat` is a prefix of `s` (Python `str.startswith`). -/
def startsWithL (pat : List Char) (l : List Char) : Bool :=
  pat.isPrefixOf l

/-- Source `_clean_url` (app.py:166): strip; empty stays empty; keep a value
already starting with `http://` or `https://` (checked case-sensitively on
the original text); otherwise remove leading slashes and prepend
`https://`. -/
def _clean_url (v : Option String) : String :=
  match v with
  | none => ""
  | some s0 =>
    let s := pyStrip s0
    if s = "" then ""
    else if startsWithL "http://".data s.data || startsWithL "https://".data s.data then s
    else ⟨"https://".data ++ s.data.dropWhile (· = '/')⟩

/-- Embedding of `re.sub(r"[?#].*$", "", s)`: the leftmost `?` or `#` from
which the regex can match is removed together with the matched tail.
Because `.` does not match a newline and `$` only matches at the end of the
string or before a final newline, the tail after the `?`/`#` must contain
no newline, except possibly a single final one (which is kept). -/
def stripQueryFragL : List Char → List Char
  | [] => []
  | c :: cs =>
    if c = '?' || c = '#' then
      if cs.contains '\n' then
        if cs.count '\n' = 1 && cs.getLast? = some '\n' then ['\n']
        else c :: stripQueryFragL cs
      else []
    else c :: stripQueryFragL cs

/-- Source `_norm_profile` (app.py:283): `_clean_url(v).strip().lower()`,
empty stays empty, strip query string and fragment, strip all trailing
slashes (`str.rstrip("/")`). -/
def _norm_profile (v : Option String) : String :=
  let s := pyLower (pyStrip (_clean_url v))
  if s = "" then ""
  else ⟨(stripQueryFragL s.data).reverse.dropWhile (· = '/') |>.reverse⟩

/-- Source `compute_dedupe_key` (app.py:292): priority email, then profile
URL, then name+company, else empty. -/
def compute_dedupe_key (first last company email profile_url : Option String) : String :=
  let em := _norm_email email
  if em ≠ "" then "email:" ++ em
  else
    let pr := _norm_profile profile_url
    if pr ≠ "" then "profile:" ++ pr
    else
      let fn := _norm_text first
      let ln := _norm_text last
      let co := _norm_company company
      if fn ≠ "" || ln ≠ "" || co ≠ "" then "nameco:" ++ fn ++ "|" ++ ln ++ "|" ++ co
      else ""

/-!  Note sanitization (`app.py` lines 73-109).  -/

/-- The email-thread markers tuple (app.py:73), in source order. -/
def _EMAIL_THREAD_MARKERS : List (List Char) :=
  ["\nOn ".data, "\nFrom:".data, "\nSent:".data, "\nSubject:".data,
   "\nTo:".data, "\nCc:".data]

/-- Python `s.replace("\r\n", "\n")` (left-to-right, non-overlapping). -/
def replaceCRLF : List Char → List Char
  | '\r' :: '\n' :: cs => '\n' :: replaceCRLF cs
  | c :: cs => c :: replaceCRLF cs
  | [] => []

/-- Python `m in s` substring containment. -/
def containsSubL (m : List Char) : List Char → Bool
  | [] => m.isEmpty
  | c :: cs => startsWithL m (c :: cs) || containsSubL m cs

/-- Python `s.split(m)[0]` for a non-empty needle `m`: the text before the
first occurrence of `m` (all of `s` when `m` does not occur). -/
def takeBeforeSubL (m : List Char) : List Char → List Char
  | [] => []
  | c :: cs => if startsWithL m (c :: cs) then [] else c :: takeBeforeSubL m cs

/-- Can `\swrote:\s*\n` match at the head of `r`?  (`\s*\n` succeeds exactly
when the leading whitespace run after `wrote:` contains a newline.) -/
def wroteTail (r : List Char) : Bool :=
  match r with
  | [] => false
  | c :: rest =>
    pyIsSpace c && startsWithL "wrote:".data rest &&
      ((rest.drop 6).takeWhile pyIsSpace).contains '\n'

/-- Can `.+\swrote:\s*\n` match at the head of `r`?  The backtracking engine
tries every split, so this is: some non-empty newline-free run of
characters, followed by a position where `wroteTail` holds. -/
def dotPlusWrote : List Char → Bool
  | [] => false
  | c :: cs => c ≠ '\n' && (wroteTail cs || dotPlusWrote cs)

/-- Can the pattern `\nOn\s.+\swrote:\s*\n` (app.py:100) match starting at
the head of the list? -/
def matchWroteAt : List Char → Bool
  | '\n' :: 'O' :: 'n' :: c :: r => pyIsSpace c && dotPlusWrote r
  | _ => false

/-- Python `re.split(r"\nOn\s.+\swrote:\s*\n", s, maxsplit=1)[0]`: the text
before the leftmost match of the quoted-reply pattern. -/
def splitWroteL : List Char → List Char
  | [] => []
  | c :: cs => if matchWroteAt (c :: cs) then [] else c :: splitWroteL cs

/-- Lines 95-100 of `sanitize_note_text`: cut at the first email-thread
marker contained in the text (tuple order, `break` after the first hit),
then cut before the quoted-reply pattern. -/
def sanitizeTrimThreads (l0 : List Char) : List Char :=
  let lm :=
    match _EMAIL_THREAD_MARKERS.find? (fun m => containsSubL m l0) with
    | some m => takeBeforeSubL m l0
    | none => l0
  splitWroteL lm

/-- Lines 102-109 of `sanitize_note_text`: collapse newline runs to the
`" ⏎ "` marker, collapse whitespace runs to single spaces and strip, then
cap the length (keeping `max_len` characters, right-stripped, plus the
ellipsis). -/
def sanitizeFinish (l1 : List Char) (max_len : Nat) : String :=
  let l2 := collapseRuns (· = '\n') " ⏎ ".data l1
  let l3 := pyStripL (collapseRuns pyIsSpace [' '] l2)
  if max_len ≠ 0 && l3.length > max_len then ⟨pyRStripL (l3.take max_len) ++ ['…']⟩
  else ⟨l3⟩

/-- Source `sanitize_note_text` (app.py:83): converts a multi-line note into
a single line; optionally trims quoted email threads; caps the length.
(The first step normalizes `\r\n` and stray `\r` to `\n`.) -/
def sanitize_note_text (v : Option String) (trim_email_threads : Bool := true)
    (max_len : Nat := 4000) : String :=
  match v with
  | none => ""
  | some s =>
    let l0 := (replaceCRLF s.data).map (fun c => if c = '\r' then '\n' else c)
    sanitizeFinish (if trim_email_threads then sanitizeTrimThreads l0 else l0) max_len

/-!  Status normalization (`app.py` lines 54-65 and 1150-1171).  -/

/-- The pipeline status enumeration (app.py:54). -/
def PIPELINE : List String :=
  ["New", "Contacted", "Meeting", "Quoted", "Won", "Lost", "Nurture",
   "Pending", "On hold", "Irrelevant"]

/-- The synonyms dictionary of `normalize_status` (app.py:1159). -/
def statusSynonyms : List (String × String) :=
  [("new lead", "New"), ("contact", "Contacted"),
   ("meeting scheduled", "Meeting"), ("quote", "Quoted"),
   ("won deal", "Won"), ("lost deal", "Lost"),
   ("follow up", "Nurture"), ("follow-up", "Nurture")]

/-- Source `normalize_status` (app.py:1150): canonicalizes free text to a
`PIPELINE` entry, via case-insensitive equality then a synonyms table;
unrecognized input maps to `None`. -/
def normalize_status (val : Option String) : Option String :=
  match val with
  | none => none
  | some v =>
    let s := pyLower (pyStrip v)
    if s = "" then none
    else
      match PIPELINE.find? (fun p => s = pyLower p) with
      | some p => some p
      | none => (statusSynonyms.find? (fun kv => kv.1 = s)).map (fun kv => kv.2)

/-!  Data model (`init_db`, app.py lines 540-615).

A `Contact` carries the columns that participate in identity resolution,
deduplication and the status audit trail; the remaining free-text columns
(job title, address, phone, category, owner, …) are carried along unchanged
by every modelled operation and do not influence any of them, so they are
elided from the record.  SQLite row ids are modelled with a monotone
`nextId` counter; `dedupeIndex` records whether the partial unique index
`idx_contacts_dedupe_key` currently exists. -/

structure Contact where
  id : Nat
  first_name : Option String
  last_name : Option String
  company : Option String
  email : Option String
  profile_url : Option String
  status : Option String
  dedupe_key : Option String
deriving DecidableEq

/-- A `notes` row (the `id` primary key and `next_followup` column are
elided: nothing modelled reads them). -/
structure Note where
  contact_id : Nat
  ts : String
  body : String
deriving DecidableEq

/-- A `status_history` row (audit record of one status transition). -/
structure StatusChange where
  contact_id : Nat
  ts : String
  old_status : String
  new_status : String
deriving DecidableEq

/-- A `sales` row (the sale-specific payload columns are elided; only
ownership matters to the modelled operations). -/
structure SaleLine where
  contact_id : Nat
  sold_at : String
deriving DecidableEq

structure DB where
  contacts : List Contact
  notes : List Note
  status_history : List StatusChange
  sales : List SaleLine
  nextId : Nat
  dedupeIndex : Bool
deriving DecidableEq

/-- SQLite `TRIM(x)`: removes spaces (only `' '`) from both ends. -/
def sqliteTrim (s : String) : String :=
  ⟨((s.data.dropWhile (· = ' ')).reverse.dropWhile (· = ' ')).reverse⟩

/-- SELECT by primary key. -/
def findContact (db : DB) (cid : Nat) : Option Contact :=
  db.contacts.find? (fun c => c.id = cid)

/-!  Record Matcher (`_find_existing_contact_id`, app.py:1258).  -/

/-- Source `_find_existing_contact_id` (app.py:1258): three lookups, first
hit wins: exact stored email, case-insensitive stored profile URL, exact
stored dedupe key; `none` when nothing matches. -/
def _find_existing_contact_id (db : DB) (dedupe_key : String)
    (email profile_url : Option String) : Option Nat :=
  let byEmail :=
    if otruthy email then (db.contacts.find? (fun c => c.email = email)).map (fun c => c.id)
    else none
  match byEmail with
  | some i => some i
  | none =>
    let byProf :=
      if otruthy profile_url then
        (db.contacts.find? (fun c =>
          match c.profile_url with
          | some p => pyLower p = pyLower (profile_url.getD "")
          | none => false)).map (fun c => c.id)
      else none
    match byProf with
    | some i => some i
    | none =>
      if dedupe_key ≠ "" then
        (db.contacts.find? (fun c => c.dedupe_key = some dedupe_key)).map (fun c => c.id)
      else none

/-!  Duplicate Sweep (`dedupe_database`, app.py:929).  -/

/-- Line 936: `UPDATE contacts SET dedupe_key=NULL`. -/
def clearKey (c : Contact) : Contact := { c with dedupe_key := none }

/-- Lines 943-945: store the freshly computed key (`key or None`). -/
def recomputeKey (c : Contact) : Contact :=
  { c with dedupe_key :=
      noneIfEmpty (compute_dedupe_key c.first_name c.last_name c.company c.email c.profile_url) }

/-- Lines 949-957: the keys that are non-NULL, non-blank after `TRIM`, and
held by more than one contact. -/
def dupKeys (cs : List Contact) : List String :=
  let keys := (cs.filterMap (fun c => c.dedupe_key)).filter (fun k => sqliteTrim k ≠ "")
  keys.dedup.filter (fun k => 1 < keys.count k)

/-- The per-loser child re-pointing updates (lines 973-975). -/
def repointNote (w l : Nat) (ns : List Note) : List Note :=
  ns.map (fun n => if n.contact_id = l then { n with contact_id := w } else n)

def repointHist (w l : Nat) (hs : List StatusChange) : List StatusChange :=
  hs.map (fun h => if h.contact_id = l then { h with contact_id := w } else h)

def repointSale (w l : Nat) (ss : List SaleLine) : List SaleLine :=
  ss.map (fun s => if s.contact_id = l then { s with contact_id := w } else s)

/-- Mutable state of the merge loop of `dedupe_database`. -/
structure SweepSt where
  contacts : List Contact
  notes : List Note
  history : List StatusChange
  sales : List SaleLine
  deleted : Nat
deriving DecidableEq

/-- Lines 962-964: the group's ids, re-queried from the live table in
ascending order (`ORDER BY id ASC`). -/
def groupIds (st : SweepSt) (k : String) : List Nat :=
  List.insertionSort (· ≤ ·)
    ((st.contacts.filter (fun c => c.dedupe_key = some k)).map (fun c => c.id))

/-- One iteration of the merge loop (lines 961-981): re-query the group's
ids in ascending order, keep the smallest id as winner, re-point every
child of each loser to the winner, delete the losers. -/
def mergeGroup (st : SweepSt) (k : String) : SweepSt :=
  match groupIds st k with
  | [] => st
  | [_] => st
  | winner :: losers =>
    { contacts := st.contacts.filter (fun c => ¬ losers.contains c.id)
      notes := losers.foldl (fun ns l => repointNote winner l ns) st.notes
      history := losers.foldl (fun hs l => repointHist winner l hs) st.history
      sales := losers.foldl (fun ss l => repointSale winner l ss) st.sales
      deleted := st.deleted + losers.length }

/-- No two contacts share a non-empty (after `TRIM`) dedupe key — the
condition under which `CREATE UNIQUE INDEX idx_contacts_dedupe_key`
succeeds. -/
def noDupKeysB (cs : List Contact) : Bool :=
  (dupKeys cs).isEmpty

/-- Source `dedupe_database` (app.py:929): drop the unique index, recompute
every dedupe key, merge every duplicate group (winner = smallest id),
recreate the index, and return the number of contacts deleted. -/
def dedupe_database (db : DB) : DB × Nat :=
  let cs0 := db.contacts.map clearKey
  let cs1 := cs0.map recomputeKey
  let st0 : SweepSt :=
    { contacts := cs1, notes := db.notes, history := db.status_history,
      sales := db.sales, deleted := 0 }
  let st := (dupKeys cs1).foldl mergeGroup st0
  ({ db with
      contacts := st.contacts, notes := st.notes, status_history := st.history,
      sales := st.sales, dedupeIndex := noDupKeysB st.contacts },
   st.deleted)

/-- Source `ensure_dedupe_index` (app.py:1001): try to create the partial
unique index (`IF NOT EXISTS` makes this a no-op when it already exists);
on failure run `dedupe_database` and retry once; on a second failure leave
the index absent. -/
def ensure_dedupe_index (db : DB) : DB :=
  if db.dedupeIndex then db
  else if noDupKeysB db.contacts then { db with dedupeIndex := true }
  else
    let db1 := (dedupe_database db).1
    if db1.dedupeIndex then db1
    else if noDupKeysB db1.contacts then { db1 with dedupeIndex := true }
    else db1

/-!  Status update from the overview lists (`update_contact_status`,
app.py:1545).  -/

/-- Source `update_contact_status` (app.py:1545): no-op for an unknown id
or an unchanged status; otherwise append a `status_history` row and then
overwrite the contact's status. -/
def update_contact_status (now : String) (db : DB) (contact_id : Nat)
    (new_status : String) : DB :=
  let ns := pyStrip (pyOrStr new_status "New")
  match findContact db contact_id with
  | none => db
  | some c =>
    let old := pyStrip (pyOr c.status "New")
    if old = ns then db
    else
      { db with
          status_history := db.status_history ++
            [{ contact_id := contact_id, ts := now, old_status := old, new_status := ns }],
          contacts := db.contacts.map (fun x =>
            if x.id = contact_id then { x with status := some ns } else x) }

/-!  Upsert Pipeline (`upsert_contacts`, app.py:1277).

A `Row` is one imported row after the external collaborators have run
(`normalize_columns` header mapping, `fillna("")`, and `parse_dt` on the
scan timestamp); the claims are about the identity/merge/audit logic, so
the columns that merely pass through into elided `Contact` fields are
likewise elided.  A missing cell and an empty cell are both `none`/`""`
falsy, exactly as after `fillna("")`. -/

structure Row where
  scan_datetime : Option String := none
  first_name : Option String := none
  last_name : Option String := none
  company : Option String := none
  email : Option String := none
  profile_url : Option String := none
  status : Option String := none
  notes : Option String := none
deriving DecidableEq

/-- The diagnostic surfaced by the per-row `except` handler
(app.py:1464-1469): the 1-based row number, the row's normalized email and
its best-known name. -/
structure Diag where
  rowNum : Nat
  email : Option String
  name : String
deriving DecidableEq

/-- Connection events, used to express transaction granularity: `rowWritten
i` marks the completion of row `i`'s statements inside the loop, `commit`
marks a `conn.commit()`. -/
inductive Ev where
  | rowWritten (i : Nat)
  | commit
deriving DecidableEq

/-- Does the `UPDATE contacts … WHERE id=eid` of the upsert violate a
uniqueness constraint?  The schema's `email UNIQUE` column rejects a
non-NULL email held by a different contact; the partial unique index on
`dedupe_key`, when it exists, rejects a non-blank key held by a different
contact. -/
def updateViolates (db : DB) (eid : Nat) (email dedupe_key : Option String) : Bool :=
  (match email with
   | some e => db.contacts.any (fun c => c.id ≠ eid && c.email = some e)
   | none => false) ||
  (db.dedupeIndex &&
   match dedupe_key with
   | some k => sqliteTrim k ≠ "" && db.contacts.any (fun c => c.id ≠ eid && c.dedupe_key = some k)
   | none => false)

/-- Does the `INSERT INTO contacts` violate a uniqueness constraint? -/
def insertViolates (db : DB) (email dedupe_key : Option String) : Bool :=
  (match email with
   | some e => db.contacts.any (fun c => c.email = some e)
   | none => false) ||
  (db.dedupeIndex &&
   match dedupe_key with
   | some k => sqliteTrim k ≠ "" && db.contacts.any (fun c => c.dedupe_key = some k)
   | none => false)

/-- Lines 1453-1460: insert a note unless an identical body already exists
for this contact. -/
def insertNoteIfNew (db : DB) (cid : Nat) (body ts : String) : DB :=
  if body ≠ "" then
    if db.notes.any (fun n => n.contact_id = cid && n.body = body) then db
    else { db with notes := db.notes ++ [{ contact_id := cid, ts := ts, body := body }] }
  else db

/-- The diagnostic built by the handler for row `idx` (0-based): Python
prints `idx + 1`, the normalized email and the stripped first/last name. -/
def rowDiag (idx : Nat) (r : Row) : Diag :=
  { rowNum := idx + 1,
    email := noneIfEmpty (_norm_email r.email),
    name := pyOr (noneIfEmpty (pyStrip (pyOr r.first_name ""))) "" ++ " " ++
            pyOr (noneIfEmpty (pyStrip (pyOr r.last_name ""))) "" }

/-- One iteration of the row loop of `upsert_contacts` (lines 1286-1469).
Returns the database after the row's statements (partial effects of a row
that fails mid-way are kept, as in SQLite, where a failed statement does
not undo earlier statements of the same transaction) and `some` diagnostic
when the row was skipped by the `except sqlite3.Error` handler. -/
def processRow (now : String) (db : DB) (idx : Nat) (r : Row) : DB × Option Diag :=
  let email := noneIfEmpty (_norm_email r.email)
  let note_text := sanitize_note_text r.notes true 4000
  let scan_dt := pyOrNone r.scan_datetime
  let first := noneIfEmpty (pyStrip (pyOr r.first_name ""))
  let last := noneIfEmpty (pyStrip (pyOr r.last_name ""))
  let company := noneIfEmpty (pyStrip (pyOr r.company ""))
  let profile_url := noneIfEmpty (_clean_url (some (pyOr r.profile_url "")))
  let status_from_file := pyOrNone (normalize_status r.status)
  let dedupe_key := noneIfEmpty (compute_dedupe_key first last company email profile_url)
  let existing_id := _find_existing_contact_id db (dedupe_key.getD "") email profile_url
  let existing_status : Option String :=
    match existing_id with
    | some eid => some (pyOrStr (pyOr ((findContact db eid).bind (fun c => c.status)) "New") "New")
    | none => none
  let final_status := pyOr status_from_file (pyOr existing_status "New")
  let diag := rowDiag idx r
  match existing_id with
  | some eid =>
    let db1 :=
      if pyStrip (pyOr existing_status "New") ≠ pyStrip (pyOrStr final_status "New") then
        { db with status_history := db.status_history ++
            [{ contact_id := eid, ts := now,
               old_status := pyStrip (pyOr existing_status "New"),
               new_status := pyStrip (pyOrStr final_status "New") }] }
      else db
    if updateViolates db1 eid email dedupe_key then (db1, some diag)
    else
      let db2 := { db1 with contacts := db1.contacts.map (fun c =>
        if c.id = eid then
          { c with first_name := first, last_name := last, company := company,
                   email := email, profile_url := profile_url,
                   status := some final_status, dedupe_key := dedupe_key }
        else c) }
      (insertNoteIfNew db2 eid note_text (pyOr scan_dt now), none)
  | none =>
    if insertViolates db email dedupe_key then (db, some diag)
    else
      let c : Contact :=
        { id := db.nextId, first_name := first, last_name := last, company := company,
          email := email, profile_url := profile_url,
          status := some final_status, dedupe_key := dedupe_key }
      let db2 := { db with contacts := db.contacts ++ [c], nextId := db.nextId + 1 }
      (insertNoteIfNew db2 db.nextId note_text (pyOr scan_dt now), none)

/-- The row loop: every row is processed in order; a diagnosed row is
skipped and the loop continues with the next row (`continue`). -/
def upsertLoop (now : String) : DB → Nat → List Row → DB × Nat × List Diag × List Ev
  | db, _, [] => (db, 0, [], [])
  | db, i, r :: rs =>
    match processRow now db i r with
    | (db1, none) =>
      match upsertLoop now db1 (i + 1) rs with
      | (dbF, n, ds, evs) => (dbF, n + 1, ds, Ev.rowWritten i :: evs)
    | (db1, some dg) =>
      match upsertLoop now db1 (i + 1) rs with
      | (dbF, n, ds, evs) => (dbF, n, dg :: ds, evs)

/-- Result of a batch import. -/
structure UpsertResult where
  db : DB
  n : Nat
  diags : List Diag
  events : List Ev
deriving DecidableEq

/-- Commit events performed by `ensure_dedupe_index` (a successful
`CREATE INDEX` path commits once; the recovery path runs the four commits
of `dedupe_database` and then the retry's commit). -/
def ensureIndexEvents (db : DB) : List Ev :=
  if db.dedupeIndex then [Ev.commit]
  else if noDupKeysB db.contacts then [Ev.commit]
  else [Ev.commit, Ev.commit, Ev.commit, Ev.commit, Ev.commit]

/-- Source `upsert_contacts` (app.py:1277): process every row, then
`conn.commit()` once for the whole batch (line 1471), back up, and ensure
the dedupe index.  Returns the count of rows written, the diagnostics of
skipped rows, and the connection-event trace. -/
def upsert_contacts (now : String) (db : DB) (rows : List Row) : UpsertResult :=
  let (db1, n, ds, evs) := upsertLoop now db 0 rows
  { db := ensure_dedupe_index db1, n := n, diags := ds,
    events := evs ++ [Ev.commit] ++ ensureIndexEvents db1 }

/-!  Manual add form (`add_contact_form`, app.py:2040-2233), submission
path.  Only the modelled columns appear; the form's other inputs flow into
elided `Contact` fields.  -/

/-- Source `add_contact_form` submit handler (app.py:2114-2233): validate,
normalize, look up an existing contact; update it in place when found
(overwriting its status with the form's status), otherwise insert a new
contact; in both cases optionally attach the first note. -/
def add_contact_submit (now : String) (db : DB) (first last company email
    profile_url status first_note : String) : DB :=
  let email_norm := noneIfEmpty (_norm_email (some email))
  let profile_norm := noneIfEmpty (_clean_url (some profile_url))
  if ¬ otruthy email_norm && ¬ (first ≠ "" && last ≠ "" && company ≠ "") then db
  else
    let status_norm := pyOr (normalize_status (some status)) "New"
    let dedupe_key :=
      noneIfEmpty (compute_dedupe_key (some first) (some last) (some company) email_norm profile_norm)
    let existing_id := _find_existing_contact_id db (dedupe_key.getD "") email_norm profile_norm
    let cleaned_first_note :=
      if pyStrip (pyOrStr first_note "") ≠ "" then sanitize_note_text (some first_note) false 4000
      else ""
    match existing_id with
    | some eid =>
      let db1 := { db with contacts := db.contacts.map (fun c =>
        if c.id = eid then
          { c with first_name := noneIfEmpty (pyStrip first),
                   last_name := noneIfEmpty (pyStrip last),
                   company := noneIfEmpty (pyStrip company),
                   email := email_norm, profile_url := profile_norm,
                   status := some status_norm, dedupe_key := dedupe_key }
        else c) }
      let db2 :=
        if cleaned_first_note ≠ "" then
          { db1 with notes := db1.notes ++
              [{ contact_id := eid, ts := now, body := cleaned_first_note }] }
        else db1
      ensure_dedupe_index db2
    | none =>
      let c : Contact :=
        { id := db.nextId, first_name := noneIfEmpty (pyStrip first),
          last_name := noneIfEmpty (pyStrip last),
          company := noneIfEmpty (pyStrip company),
          email := email_norm, profile_url := profile_norm,
          status := some status_norm, dedupe_key := dedupe_key }
      let db1 := { db with contacts := db.contacts ++ [c], nextId := db.nextId + 1 }
      let db2 :=
        if cleaned_first_note ≠ "" then
          { db1 with notes := db1.notes ++
              [{ contact_id := db.nextId, ts := now, body := cleaned_first_note }] }
        else db1
      ensure_dedupe_index db2

/-!  Spec-side definitions.

These definitions follow the wording of the specification (for the
refinement claims C1, C7 and C8) and are compared with the definitions
embedded from the source.  -/

/-- Spec §4.2, word for word: priority 1 email, 2 profile URL, 3
name+company when any part is non-empty, else the empty string. -/
def computeDedupeKeySpec (first last company email profile_url : Option String) : String :=
  if _norm_email email ≠ "" then "email:" ++ _norm_email email
  else if _norm_profile profile_url ≠ "" then "profile:" ++ _norm_profile profile_url
  else if _norm_text first ≠ "" ∨ _norm_text last ≠ "" ∨ _norm_company company ≠ "" then
    "nameco:" ++ _norm_text first ++ "|" ++ _norm_text last ++ "|" ++ _norm_company company
  else ""

/-- Spec §4.3 step 1: lookup by normalized email, if non-empty. -/
def lookupByEmailSpec (db : DB) (email : Option String) : Option Nat :=
  if otruthy email then (db.contacts.find? (fun c => c.email = email)).map (fun c => c.id)
  else none

/-- Spec §4.3 step 2: lookup by normalized profile URL (case-insensitive),
if non-empty. -/
def lookupByProfileSpec (db : DB) (profile_url : Option String) : Option Nat :=
  if otruthy profile_url then
    (db.contacts.find? (fun c =>
      match c.profile_url with
      | some p => pyLower p = pyLower (profile_url.getD "")
      | none => false)).map (fun c => c.id)
  else none

/-- Spec §4.3 step 3: lookup by dedupe key, if non-empty. -/
def lookupByKeySpec (db : DB) (key : String) : Option Nat :=
  if key ≠ "" then
    (db.contacts.find? (fun c => c.dedupe_key = some key)).map (fun c => c.id)
  else none

/-- Spec §4.3: the three lookups tried in order, first hit wins. -/
def findExistingContactSpec (db : DB) (key : String)
    (email profile_url : Option String) : Option Nat :=
  (lookupByEmailSpec db email).orElse (fun _ =>
    (lookupByProfileSpec db profile_url).orElse (fun _ =>
      lookupByKeySpec db key))

/-- Claim C8 word for word: lowercase the value, prefix `https://` when a
scheme is missing, strip the query string and fragment, strip a single
trailing slash (total, with the same trim/empty handling as the code). -/
def normalizeProfileUrlClaim (v : Option String) : String :=
  match v with
  | none => ""
  | some s0 =>
    let t := pyStrip s0
    if t = "" then ""
    else
      let low := pyLowerL t.data
      let sch :=
        if startsWithL "http://".data low || startsWithL "https://".data low then low
        else "https://".data ++ low.dropWhile (· = '/')
      let q := stripQueryFragL sch
      ⟨if q.getLast? = some '/' then q.dropLast else q⟩

/-- Claim C8 as amended by the counterexamples: the scheme test is
case-sensitive and happens before lowercasing, and all trailing slashes
are stripped. -/
def normalizeProfileUrlAmended (v : Option String) : String :=
  match v with
  | none => ""
  | some s0 =>
    let t := pyStrip s0
    if t = "" then ""
    else
      let sch :=
        if startsWithL "http://".data t.data || startsWithL "https://".data t.data then t.data
        else "https://".data ++ t.data.dropWhile (· = '/')
      ⟨((stripQueryFragL (pyLowerL sch)).reverse.dropWhile (· = '/')).reverse⟩

/-!  Observables used by the sweep and batch claims.  -/

/-- Re-owning a child row: only its `contact_id` changes. -/
def reownNote (g : Nat → Nat) (n : Note) : Note := { n with contact_id := g n.contact_id }

def reownHist (g : Nat → Nat) (h : StatusChange) : StatusChange :=
  { h with contact_id := g h.contact_id }

def reownSale (g : Nat → Nat) (s : SaleLine) : SaleLine := { s with contact_id := g s.contact_id }

/-- The id substitution performed by re-pointing the losers `ls` to the
winner `w` one after another. -/
def substFold (w : Nat) (ls : List Nat) (x : Nat) : Nat :=
  ls.foldl (fun y l => if y = l then w else y) x

/-- Contact ids are pairwise distinct (they model a primary-key column). -/
def NodupIds (cs : List Contact) : Prop := (cs.map (fun c => c.id)).Nodup

instance (cs : List Contact) : Decidable (NodupIds cs) := by
  unfold NodupIds; infer_instance

/-- Is `c` a merge loser: it holds a non-blank dedupe key that a contact
with a strictly smaller id also holds. -/
def hasSmallerSameKey (cs : List Contact) (c : Contact) : Bool :=
  match c.dedupe_key with
  | none => false
  | some k => sqliteTrim k ≠ "" && cs.any (fun c2 => c2.dedupe_key = some k && c2.id < c.id)

/-- The contacts surviving a sweep of `cs`: exactly the members that are
minimal (by id) among the holders of their non-blank key, plus every
contact with a blank key. -/
def sweepSurvivors (cs : List Contact) : List Contact :=
  cs.filter (fun c => ¬ hasSmallerSameKey cs c)

/-- Does `c`'s key belong to the list `P` of already-merged keys? -/
def keyInList (c : Contact) (P : List String) : Bool :=
  match c.dedupe_key with
  | some k => P.contains k
  | none => false

/-- Invariant shape of the merge loop: after merging the groups of the keys
in `P`, the live contacts are those of `cs1` that are not losers of a key
in `P`. -/
def survFilter (cs1 : List Contact) (P : List String) : List Contact :=
  cs1.filter (fun c => ¬ (hasSmallerSameKey cs1 c && keyInList c P))

def isCommitEv : Ev → Bool
  | Ev.commit => true
  | _ => false

def isWriteEv : Ev → Bool
  | Ev.rowWritten _ => true
  | _ => false

/-- Once a commit appears in the trace, no further row write occurs: the
whole batch is written first and committed afterwards. -/
def noWriteAfterCommit (tr : List Ev) : Bool :=
  (tr.dropWhile (fun e => ¬ isCommitEv e)).all (fun e => ¬ isWriteEv e)

/-- The transaction discipline claimed by C6: every row write is committed
before the next row write begins (and the final write is committed). -/
def perRowCommitsAux : Bool → List Ev → Bool
  | pending, [] => ¬ pending
  | _, Ev.commit :: tr => perRowCommitsAux false tr
  | pending, Ev.rowWritten _ :: tr =>
    if pending then false else perRowCommitsAux true tr

def perRowCommits (tr : List Ev) : Bool := perRowCommitsAux false tr

/-!  Concrete fixtures used by the closed theorems and witnesses.  -/

/-- A fresh store (tables created by `init_db`, index in place). -/
def emptyDB : DB :=
  { contacts := [], notes := [], status_history := [], sales := [],
    nextId := 1, dedupeIndex := true }

/-- Scenario B rows (spec §8). -/
def rowJaneUpper : Row :=
  { first_name := some "Jane", last_name := some "Doe", company := some "Acme Inc." }

def rowJaneLower : Row :=
  { first_name := some "jane", last_name := some "doe", company := some "ACME, Inc" }

/-- One stored contact with email `j@x` and status `New`. -/
def contactJ : Contact :=
  { id := 1, first_name := some "Jane", last_name := none, company := none,
    email := some "j@x", profile_url := none, status := some "New",
    dedupe_key := some "email:j@x" }

def dbWithJ : DB :=
  { contacts := [contactJ], notes := [], status_history := [], sales := [],
    nextId := 2, dedupeIndex := true }

/-- A store holding one duplicated email pair (ids 1 and 2) and one
unrelated contact, with children attached to the future loser. -/
def dbDupPair : DB :=
  { contacts :=
      [{ id := 1, first_name := none, last_name := none, company := none,
         email := some "x@y", profile_url := none, status := some "New", dedupe_key := none },
       { id := 2, first_name := none, last_name := none, company := none,
         email := some "x@y", profile_url := none, status := some "Won", dedupe_key := none },
       { id := 3, first_name := some "Bob", last_name := none, company := none,
         email := none, profile_url := none, status := some "New", dedupe_key := none }],
    notes := [{ contact_id := 2, ts := "t0", body := "note on loser" }],
    status_history := [{ contact_id := 2, ts := "t0", old_status := "New", new_status := "Won" }],
    sales := [{ contact_id := 2, sold_at := "2024-01-01" }],
    nextId := 4, dedupeIndex := false }

/-- Two import rows with distinct fresh emails (both insert cleanly). -/
def rowEmailA : Row := { email := some "a@x.com" }

def rowEmailB : Row := { email := some "b@x.com" }

/-- A store on which an import row fails with a uniqueness violation:
the row matches contact 1 by profile URL, but the update would give
contact 1 the dedupe key already held by contact 2 while the partial
unique index exists. -/
def dbKeyClash : DB :=
  { contacts :=
      [{ id := 1, first_name := none, last_name := none, company := none,
         email := some "a@x", profile_url := some "https://x.com/in/j",
         status := some "New", dedupe_key := some "email:a@x" },
       { id := 2, first_name := none, last_name := none, company := none,
         email := none, profile_url := some "https://X.com/in/j",
         status := some "New", dedupe_key := some "profile:https://x.com/in/j" }],
    notes := [], status_history := [], sales := [], nextId := 3, dedupeIndex := true }

def rowClash : Row := { first_name := some "J", profile_url := some "x.com/in/j" }

end CRM


namespace CRM

/-- Claim C1: for every input tuple, `compute_dedupe_key` follows the
strict first-match-wins priority of spec §4.2 — `"email:" + normalized
email` when that is non-empty (regardless of the other fields), else
`"profile:" + normalized profile URL` when non-empty, else
`"nameco:" + first + "|" + last + "|" + company` when any of the three is
non-empty, else the empty string — here stated as agreement with the
spec-worded `computeDedupeKeySpec` on all inputs. -/
theorem c1_dedupe_key_priority (first last company email profile_url : Option String) :
    compute_dedupe_key first last company email profile_url
      = computeDedupeKeySpec first last company email profile_url := by
  simp only [compute_dedupe_key, computeDedupeKeySpec, Bool.or_eq_true, decide_eq_true_eq,
    or_assoc]

/-- Claim C2 (code bug): the manual-add form's update path overwrites the
stored status of the matched contact without appending the `StatusChange`
audit row.  Concretely: the store holds one contact with status `New`;
submitting the add-contact form with the same email and status `Contacted`
changes the stored status but leaves `status_history` empty — contradicting
the spec's rule that every status change is recorded before the status
field is overwritten.  (The other paths — import upsert, the contact-edit
form, `update_contact_status` — do append the row first.) -/
theorem c2_add_form_update_skips_audit :
    ((add_contact_submit "t" dbWithJ "Jane" "Doe" "Acme" "j@x" "" "Contacted" "").contacts.map
        (fun c => c.status) = [some "Contacted"])
    ∧ (add_contact_submit "t" dbWithJ "Jane" "Doe" "Acme" "j@x" "" "Contacted" "").status_history = []
    ∧ dbWithJ.contacts.map (fun c => c.status) = [some "New"]
    ∧ dbWithJ.status_history = [] := by
  refine ⟨by decide, by decide, by decide, by decide⟩

/-- Claim C9: company normalization canonicalizes `"Acme Inc."` and
`"ACME, Inc"` identically; the two Scenario-B rows both get the key
`"nameco:jane|doe|acme"`; and upserting both rows into a fresh store
leaves exactly one contact. -/
theorem c9_scenario_b_one_contact :
    _norm_company (some "Acme Inc.") = _norm_company (some "ACME, Inc")
    ∧ compute_dedupe_key (some "Jane") (some "Doe") (some "Acme Inc.") none none
        = "nameco:jane|doe|acme"
    ∧ compute_dedupe_key (some "jane") (some "doe") (some "ACME, Inc") none none
        = "nameco:jane|doe|acme"
    ∧ (upsert_contacts "t" emptyDB [rowJaneUpper, rowJaneLower]).db.contacts.length = 1 := by
  refine ⟨by decide, by decide, by decide, by decide⟩

/-- Claim C7: `_find_existing_contact_id` checks the store in the fixed
order of spec §4.3 (normalized email, then case-insensitive profile URL,
then dedupe key, first hit winning) — stated as agreement with the
spec-worded step chain — and it returns `none` exactly when none of the
three steps matches. -/
theorem c7_matcher_lookup_order (db : DB) (key : String) (email profile_url : Option String) :
    _find_existing_contact_id db key email profile_url
      = findExistingContactSpec db key email profile_url
    ∧ (_find_existing_contact_id db key email profile_url = none
        ↔ lookupByEmailSpec db email = none ∧ lookupByProfileSpec db profile_url = none
            ∧ lookupByKeySpec db key = none) := by
  have heq : _find_existing_contact_id db key email profile_url
      = (lookupByEmailSpec db email).orElse (fun _ =>
          (lookupByProfileSpec db profile_url).orElse (fun _ => lookupByKeySpec db key)) := by
    show (match lookupByEmailSpec db email with
      | some i => some i
      | none =>
        match lookupByProfileSpec db profile_url with
        | some i => some i
        | none => lookupByKeySpec db key) = _
    cases lookupByEmailSpec db email <;> cases lookupByProfileSpec db profile_url <;> rfl
  refine ⟨heq, ?_⟩
  rw [heq]
  cases lookupByEmailSpec db email <;> cases lookupByProfileSpec db profile_url <;>
    cases lookupByKeySpec db key <;> simp [Option.orElse]

/-!  String lemmas supporting the profile-URL claim.  -/

theorem dropWhile_eq_self_of_head {p : Char → Bool} {l : List Char}
    (h : ∀ c, l.head? = some c → p c = false) : l.dropWhile p = l := by
  cases l with
  | nil => rfl
  | cons a as => simp [List.dropWhile_cons, h a rfl]

theorem head?_dropWhile_false {p : Char → Bool} :
    ∀ {l : List Char} {c : Char}, (l.dropWhile p).head? = some c → p c = false := by
  intro l
  induction l with
  | nil => intro c h; simp at h
  | cons a as ih =>
    intro c h
    rw [List.dropWhile_cons] at h
    by_cases hpa : p a = true
    · rw [if_pos hpa] at h; exact ih h
    · rw [if_neg hpa] at h
      simp only [List.head?_cons, Option.some.injEq] at h
      subst h
      exact Bool.eq_false_iff.mpr hpa

theorem rstrip_eq_self_of_getLast {l : List Char}
    (h : ∀ c, l.getLast? = some c → pyIsSpace c = false) :
    (l.reverse.dropWhile pyIsSpace).reverse = l := by
  have : l.reverse.dropWhile pyIsSpace = l.reverse := by
    apply dropWhile_eq_self_of_head
    intro c hc
    rw [List.head?_reverse] at hc
    exact h c hc
  rw [this, List.reverse_reverse]

theorem pyStripL_getLast_nonspace {l : List Char} {c : Char}
    (h : (pyStripL l).getLast? = some c) : pyIsSpace c = false := by
  unfold pyStripL at h
  rw [List.getLast?_reverse] at h
  exact head?_dropWhile_false h

theorem getLast?_dropWhile_or (q : Char → Bool) (l : List Char) :
    l.dropWhile q = [] ∨ (l.dropWhile q).getLast? = l.getLast? := by
  induction l with
  | nil => left; rfl
  | cons a as ih =>
    rw [List.dropWhile_cons]
    by_cases hqa : q a = true
    · rw [if_pos hqa]
      cases as with
      | nil => left; rfl
      | cons b bs =>
        rcases ih with h | h
        · left; exact h
        · right; rw [h, List.getLast?_cons_cons]
    · rw [if_neg hqa]; right; rfl

theorem pyStripL_head_nonspace {l : List Char} {c : Char}
    (h : (pyStripL l).head? = some c) : pyIsSpace c = false := by
  unfold pyStripL at h
  rw [List.head?_reverse] at h
  rcases getLast?_dropWhile_or pyIsSpace ((l.dropWhile pyIsSpace).reverse) with h0 | h0
  · rw [h0] at h; simp at h
  · rw [h0, List.getLast?_reverse] at h
    exact head?_dropWhile_false h

/-- Python `strip` is idempotent. -/
theorem pyStripL_idem (l : List Char) : pyStripL (pyStripL l) = pyStripL l := by
  have h1 : (pyStripL l).dropWhile pyIsSpace = pyStripL l :=
    dropWhile_eq_self_of_head (fun c hc => pyStripL_head_nonspace hc)
  show ((((pyStripL l).dropWhile pyIsSpace).reverse.dropWhile pyIsSpace).reverse : List Char)
      = pyStripL l
  rw [h1]
  exact rstrip_eq_self_of_getLast (fun c hc => pyStripL_getLast_nonspace hc)

/-- Claim C8, counterexample: `_norm_profile` strips all trailing slashes
(`rstrip("/")`), not a single one, and its scheme test runs case-sensitively
before lowercasing, so the claim's description fails on `"x.com//"` and on
`"HTTP://x.com"`. -/
theorem c8_counterexample :
    _norm_profile (some "x.com//") ≠ normalizeProfileUrlClaim (some "x.com//")
    ∧ _norm_profile (some "x.com//") = "https://x.com"
    ∧ normalizeProfileUrlClaim (some "x.com//") = "https://x.com/"
    ∧ _norm_profile (some "HTTP://x.com") ≠ normalizeProfileUrlClaim (some "HTTP://x.com")
    ∧ _norm_profile (some "HTTP://x.com") = "https://http://x.com"
    ∧ normalizeProfileUrlClaim (some "HTTP://x.com") = "http://x.com" := by
  refine ⟨by decide, by decide, by decide, by decide, by decide, by decide⟩

/-- Claim C8 as amended: `_norm_profile` is total; it ensures a scheme by
prefixing `https://` when the (pre-lowercasing) value does not start with
`http://` or `https://` literally, then lowercases, strips the query string
and fragment, and strips all trailing slashes; in particular the two
example inputs canonicalize to the identical string. -/
theorem c8_amended_profile_normalization (v : Option String) :
    _norm_profile v = normalizeProfileUrlAmended v
    ∧ _norm_profile (some "linkedin.com/in/jdoe/?trk=x")
        = _norm_profile (some "https://LinkedIn.com/in/jdoe") := by
  refine ⟨?_, by decide⟩
  cases v with
  | none => decide
  | some s0 =>
    by_cases ht : pyStrip s0 = ""
    · have hcu : _clean_url (some s0) = "" := by
        simp only [_clean_url]
        rw [if_pos ht]
      simp only [_norm_profile, normalizeProfileUrlAmended]
      rw [hcu, if_pos ht]
      decide
    · by_cases hs : (startsWithL "http://".data (pyStrip s0).data
          || startsWithL "https://".data (pyStrip s0).data) = true
      · have hcu : _clean_url (some s0) = pyStrip s0 := by
          simp only [_clean_url]
          rw [if_neg ht, if_pos hs]
        have hstr : pyStrip (pyStrip s0) = pyStrip s0 :=
          String.ext (pyStripL_idem s0.data)
        have hne : pyLower (pyStrip s0) ≠ "" := by
          intro h
          have hd : pyLowerL (pyStripL s0.data) = [] := congrArg String.data h
          exact ht (String.ext (List.map_eq_nil_iff.mp hd))
        simp only [_norm_profile, normalizeProfileUrlAmended]
        rw [hcu, hstr, if_neg hne, if_neg ht, if_pos hs]
        rfl
      · have hcu : _clean_url (some s0)
            = ⟨"https://".data ++ (pyStrip s0).data.dropWhile (· = '/')⟩ := by
          simp only [_clean_url]
          rw [if_neg ht, if_neg hs]
        have hlast : ∀ c,
            (("https://".data ++ (pyStrip s0).data.dropWhile (· = '/')) : List Char).getLast?
              = some c → pyIsSpace c = false := by
          intro c hc
          cases hmm : (pyStrip s0).data.dropWhile (· = '/') with
          | nil =>
            rw [hmm] at hc
            have hsl : (("https://".data ++ ([] : List Char)) : List Char).getLast? = some '/' := by
              decide
            rw [hsl] at hc
            cases hc
            decide
          | cons b bs =>
            rw [hmm, List.getLast?_append] at hc
            have hbs : ((b :: bs : List Char)).getLast?.isSome :=
              List.getLast?_isSome.mpr (by simp)
            obtain ⟨d, hd⟩ := Option.isSome_iff_exists.mp hbs
            rw [hd] at hc
            have hdc : d = c := by
              simpa [Option.or] using hc
            subst hdc
            rcases getLast?_dropWhile_or (· = '/') ((pyStrip s0).data) with h0 | h0
            · rw [hmm] at h0; cases h0
            · rw [hmm] at h0
              rw [h0] at hd
              exact pyStripL_getLast_nonspace hd
        have hstr : pyStrip (⟨"https://".data ++ (pyStrip s0).data.dropWhile (· = '/')⟩ : String)
            = ⟨"https://".data ++ (pyStrip s0).data.dropWhile (· = '/')⟩ := by
          apply String.ext
          show pyStripL ("https://".data ++ (pyStrip s0).data.dropWhile (· = '/'))
              = "https://".data ++ (pyStrip s0).data.dropWhile (· = '/')
          unfold pyStripL
          have h1 : ("https://".data ++ (pyStrip s0).data.dropWhile (· = '/')).dropWhile pyIsSpace
              = "https://".data ++ (pyStrip s0).data.dropWhile (· = '/') := by
            apply dropWhile_eq_self_of_head
            intro c hc
            have hh : (("https://".data ++ (pyStrip s0).data.dropWhile (· = '/')) : List Char).head?
                = some 'h' := rfl
            rw [hh] at hc
            cases hc
            decide
          rw [h1]
          exact rstrip_eq_self_of_getLast hlast
        have hne : pyLower (pyStrip (⟨"https://".data ++ (pyStrip s0).data.dropWhile (· = '/')⟩ : String)) ≠ "" := by
          rw [hstr]
          intro h
          have hd : pyLowerL ("https://".data ++ (pyStrip s0).data.dropWhile (· = '/')) = [] :=
            congrArg String.data h
          have hd2 : ("https://".data ++ (pyStrip s0).data.dropWhile (· = '/') : List Char) = [] :=
            List.map_eq_nil_iff.mp hd
          simp at hd2
        simp only [_norm_profile, normalizeProfileUrlAmended]
        rw [hcu, if_neg hne, hstr, if_neg ht, if_neg hs]
        rfl

/-!  Lemmas supporting the note-sanitization claim.  -/

theorem mem_collapseRunsAux {p : Char → Bool} {rep : List Char} :
    ∀ {b : Bool} {l : List Char} {c : Char}, c ∈ collapseRunsAux p rep b l →
      c ∈ rep ∨ (c ∈ l ∧ p c = false) := by
  intro b l
  induction l generalizing b with
  | nil => intro c h; simp [collapseRunsAux] at h
  | cons a as ih =>
    intro c h
    simp only [collapseRunsAux] at h
    by_cases hpa : p a = true
    · rw [if_pos hpa] at h
      rcases List.mem_append.mp h with h1 | h1
      · cases b with
        | true => simp at h1
        | false => exact Or.inl h1
      · rcases ih h1 with h2 | ⟨h2, h3⟩
        · exact Or.inl h2
        · exact Or.inr ⟨List.mem_cons_of_mem a h2, h3⟩
    · rw [if_neg hpa] at h
      rcases List.mem_cons.mp h with rfl | h1
      · exact Or.inr ⟨List.mem_cons_self c as, Bool.eq_false_iff.mpr hpa⟩
      · rcases ih h1 with h2 | ⟨h2, h3⟩
        · exact Or.inl h2
        · exact Or.inr ⟨List.mem_cons_of_mem a h2, h3⟩

theorem mem_pyStripL {l : List Char} {c : Char} (h : c ∈ pyStripL l) : c ∈ l := by
  unfold pyStripL at h
  rw [List.mem_reverse] at h
  have h1 := (List.dropWhile_sublist pyIsSpace).subset h
  rw [List.mem_reverse] at h1
  exact (List.dropWhile_sublist pyIsSpace).subset h1

theorem pyRStripL_length_le (l : List Char) : (pyRStripL l).length ≤ l.length := by
  unfold pyRStripL
  rw [List.length_reverse]
  calc (l.reverse.dropWhile pyIsSpace).length
      ≤ l.reverse.length := (List.dropWhile_sublist pyIsSpace).length_le
    _ = l.length := List.length_reverse l

theorem mem_pyRStripL {l : List Char} {c : Char} (h : c ∈ pyRStripL l) : c ∈ l := by
  unfold pyRStripL at h
  rw [List.mem_reverse] at h
  have h1 := (List.dropWhile_sublist pyIsSpace).subset h
  rw [List.mem_reverse] at h1
  exact h1

/-- No newline survives the whitespace-collapsing step. -/
theorem no_newline_in_collapsed (l : List Char) :
    '\n' ∉ pyStripL (collapseRuns pyIsSpace [' '] l) := by
  intro h
  have h1 := mem_pyStripL h
  rcases mem_collapseRunsAux h1 with h2 | ⟨_, h3⟩
  · simp at h2
  · simp [pyIsSpace] at h3

/-- The truncated branch of `sanitizeFinish` never exceeds `n + 1`
characters. -/
theorem trunc_length_le (L : List Char) (n : Nat) :
    (pyRStripL (L.take n) ++ ['…']).length ≤ n + 1 := by
  rw [List.length_append]
  have h1 := pyRStripL_length_le (L.take n)
  have h2 : (L.take n).length ≤ n := by
    rw [List.length_take]; exact Nat.min_le_left _ _
  simp only [List.length_cons, List.length_nil]
  omega

theorem sanitizeFinish_no_newline (l1 : List Char) (max_len : Nat) :
    '\n' ∉ (sanitizeFinish l1 max_len).data := by
  simp only [sanitizeFinish]
  split
  · intro hmem
    rcases List.mem_append.mp hmem with h1 | h1
    · exact no_newline_in_collapsed _ ((List.take_subset _ _) (mem_pyRStripL h1))
    · simp at h1
  · exact no_newline_in_collapsed _

theorem sanitizeFinish_length_le (l1 : List Char) (max_len : Nat) (h : 0 < max_len) :
    (sanitizeFinish l1 max_len).length ≤ max_len + 1 := by
  simp only [sanitizeFinish]
  split
  · exact trunc_length_le _ _
  · next hcond =>
    rw [Bool.and_eq_true] at hcond
    simp only [decide_eq_true_eq, not_and, Nat.not_lt] at hcond
    have h2 := hcond (Nat.pos_iff_ne_zero.mp h)
    exact Nat.le_trans h2 (Nat.le_succ _)

/-- Claim C10: `sanitize_note_text` always returns a single-line string (no
newline characters; newline runs become the `" ⏎ "` marker and whitespace
runs collapse to single spaces), `None` yields the empty string, and for a
positive `max_len` the result has at most `max_len + 1` characters, because
truncation keeps `max_len` characters and appends the one-character
ellipsis. -/
theorem c10_sanitize_single_line (v : Option String) (trim : Bool) (max_len : Nat)
    (h : 0 < max_len) :
    '\n' ∉ (sanitize_note_text v trim max_len).data
    ∧ sanitize_note_text none trim max_len = ""
    ∧ (sanitize_note_text v trim max_len).length ≤ max_len + 1 := by
  refine ⟨?_, rfl, ?_⟩
  · cases v with
    | none => simp [sanitize_note_text]
    | some s =>
      simp only [sanitize_note_text]
      exact sanitizeFinish_no_newline _ _
  · cases v with
    | none =>
      show (0 : Nat) ≤ max_len + 1
      exact Nat.zero_le _
    | some s =>
      simp only [sanitize_note_text]
      exact sanitizeFinish_length_le _ _ h

/-- Claim C10 witness. -/
theorem c10_sanitize_single_line_witness :
    0 < 5
    ∧ ('\n' ∉ (sanitize_note_text (some "a\nb") true 5).data
        ∧ sanitize_note_text none true 5 = ""
        ∧ (sanitize_note_text (some "a\nb") true 5).length ≤ 5 + 1) :=
  ⟨by decide, c10_sanitize_single_line (some "a\nb") true 5 (by decide)⟩

/-!  Lemmas supporting the sweep claims: the merge loop only re-points
children (never deletes or alters them otherwise).  -/

theorem foldl_repointNote (w : Nat) (ls : List Nat) (ns : List Note) :
    ls.foldl (fun a l => repointNote w l a) ns = ns.map (reownNote (substFold w ls)) := by
  induction ls generalizing ns with
  | nil =>
    simp only [List.foldl_nil]
    exact (List.map_id'' (fun n => rfl) ns).symm
  | cons l ls ih =>
    simp only [List.foldl_cons]
    rw [ih (repointNote w l ns)]
    unfold repointNote
    rw [List.map_map]
    apply List.map_congr_left
    intro n _
    simp only [Function.comp]
    by_cases hn : n.contact_id = l
    · rw [if_pos hn]
      simp [reownNote, substFold, hn]
    · rw [if_neg hn]
      simp [reownNote, substFold, hn]

theorem foldl_repointHist (w : Nat) (ls : List Nat) (hs : List StatusChange) :
    ls.foldl (fun a l => repointHist w l a) hs = hs.map (reownHist (substFold w ls)) := by
  induction ls generalizing hs with
  | nil =>
    simp only [List.foldl_nil]
    exact (List.map_id'' (fun x => rfl) hs).symm
  | cons l ls ih =>
    simp only [List.foldl_cons]
    rw [ih (repointHist w l hs)]
    unfold repointHist
    rw [List.map_map]
    apply List.map_congr_left
    intro x _
    simp only [Function.comp]
    by_cases hn : x.contact_id = l
    · rw [if_pos hn]
      simp [reownHist, substFold, hn]
    · rw [if_neg hn]
      simp [reownHist, substFold, hn]

theorem foldl_repointSale (w : Nat) (ls : List Nat) (ss : List SaleLine) :
    ls.foldl (fun a l => repointSale w l a) ss = ss.map (reownSale (substFold w ls)) := by
  induction ls generalizing ss with
  | nil =>
    simp only [List.foldl_nil]
    exact (List.map_id'' (fun x => rfl) ss).symm
  | cons l ls ih =>
    simp only [List.foldl_cons]
    rw [ih (repointSale w l ss)]
    unfold repointSale
    rw [List.map_map]
    apply List.map_congr_left
    intro x _
    simp only [Function.comp]
    by_cases hn : x.contact_id = l
    · rw [if_pos hn]
      simp [reownSale, substFold, hn]
    · rw [if_neg hn]
      simp [reownSale, substFold, hn]

theorem map_reownNote_id (ns : List Note) : ns.map (reownNote (fun x => x)) = ns :=
  List.map_id'' (fun _ => rfl) ns

theorem map_reownHist_id (hs : List StatusChange) : hs.map (reownHist (fun x => x)) = hs :=
  List.map_id'' (fun _ => rfl) hs

theorem map_reownSale_id (ss : List SaleLine) : ss.map (reownSale (fun x => x)) = ss :=
  List.map_id'' (fun _ => rfl) ss

/-- One merge-loop iteration re-owns all three child tables by one common
id substitution. -/
theorem mergeGroup_children (st : SweepSt) (k : String) :
    ∃ g : Nat → Nat,
      (mergeGroup st k).notes = st.notes.map (reownNote g)
      ∧ (mergeGroup st k).history = st.history.map (reownHist g)
      ∧ (mergeGroup st k).sales = st.sales.map (reownSale g) := by
  rcases hids : groupIds st k with _ | ⟨w, _ | ⟨a, ls⟩⟩
  · refine ⟨fun x => x, ?_, ?_, ?_⟩ <;>
      simp only [mergeGroup, hids] <;>
      first
        | exact (map_reownNote_id _).symm
        | exact (map_reownHist_id _).symm
        | exact (map_reownSale_id _).symm
  · refine ⟨fun x => x, ?_, ?_, ?_⟩ <;>
      simp only [mergeGroup, hids] <;>
      first
        | exact (map_reownNote_id _).symm
        | exact (map_reownHist_id _).symm
        | exact (map_reownSale_id _).symm
  · refine ⟨substFold w (a :: ls), ?_, ?_, ?_⟩ <;>
      simp only [mergeGroup, hids] <;>
      first
        | exact foldl_repointNote w (a :: ls) st.notes
        | exact foldl_repointHist w (a :: ls) st.history
        | exact foldl_repointSale w (a :: ls) st.sales

/-- The whole merge loop re-owns all three child tables by one common id
substitution. -/
theorem foldl_mergeGroup_children (ks : List String) :
    ∀ st : SweepSt, ∃ g : Nat → Nat,
      (ks.foldl mergeGroup st).notes = st.notes.map (reownNote g)
      ∧ (ks.foldl mergeGroup st).history = st.history.map (reownHist g)
      ∧ (ks.foldl mergeGroup st).sales = st.sales.map (reownSale g) := by
  induction ks with
  | nil =>
    intro st
    exact ⟨fun x => x, (map_reownNote_id _).symm, (map_reownHist_id _).symm,
      (map_reownSale_id _).symm⟩
  | cons k ks ih =>
    intro st
    obtain ⟨g1, h1, h2, h3⟩ := mergeGroup_children st k
    obtain ⟨g2, h4, h5, h6⟩ := ih (mergeGroup st k)
    refine ⟨fun x => g2 (g1 x), ?_, ?_, ?_⟩
    · rw [List.foldl_cons, h4, h1, List.map_map]
      exact List.map_congr_left (fun n _ => rfl)
    · rw [List.foldl_cons, h5, h2, List.map_map]
      exact List.map_congr_left (fun x _ => rfl)
    · rw [List.foldl_cons, h6, h3, List.map_map]
      exact List.map_congr_left (fun x _ => rfl)

/-- Claim C3: a sweep deletes no Note, StatusChange or SaleLine: there is a
single id substitution `g` such that each child table after the sweep is
exactly the old table with ownership re-pointed through `g` (so only
`contact_id` may change), and in particular the three counts — hence their
total — are unchanged. -/
theorem c3_sweep_preserves_children (db : DB) :
    ∃ g : Nat → Nat,
      (dedupe_database db).1.notes = db.notes.map (reownNote g)
      ∧ (dedupe_database db).1.status_history = db.status_history.map (reownHist g)
      ∧ (dedupe_database db).1.sales = db.sales.map (reownSale g)
      ∧ (dedupe_database db).1.notes.length = db.notes.length
      ∧ (dedupe_database db).1.status_history.length = db.status_history.length
      ∧ (dedupe_database db).1.sales.length = db.sales.length := by
  obtain ⟨g, h1, h2, h3⟩ := foldl_mergeGroup_children
    (dupKeys ((db.contacts.map clearKey).map recomputeKey))
    { contacts := (db.contacts.map clearKey).map recomputeKey, notes := db.notes,
      history := db.status_history, sales := db.sales, deleted := 0 }
  have e1 : (dedupe_database db).1.notes = db.notes.map (reownNote g) := by
    simp only [dedupe_database]
    exact h1
  have e2 : (dedupe_database db).1.status_history = db.status_history.map (reownHist g) := by
    simp only [dedupe_database]
    exact h2
  have e3 : (dedupe_database db).1.sales = db.sales.map (reownSale g) := by
    simp only [dedupe_database]
    exact h3
  exact ⟨g, e1, e2, e3, by rw [e1, List.length_map], by rw [e2, List.length_map],
    by rw [e3, List.length_map]⟩

/-!  Lemmas supporting the winner-selection and idempotence claims.  -/

theorem length_filter_or_disj (p q : Contact → Bool) :
    ∀ l : List Contact, (∀ a ∈ l, ¬(p a = true ∧ q a = true)) →
      (l.filter (fun a => p a || q a)).length = (l.filter p).length + (l.filter q).length := by
  intro l
  induction l with
  | nil => intro _; rfl
  | cons a as ih =>
    intro hdisj
    have hrest := ih (fun x hx => hdisj x (List.mem_cons_of_mem a hx))
    cases hp : p a with
    | false =>
      cases hq : q a with
      | false =>
        simp only [List.filter_cons, hp, hq, Bool.or_self, Bool.false_eq_true, if_neg,
          not_false_iff]
        exact hrest
      | true =>
        simp [List.filter_cons, hp, hq, hrest]
        omega
    | true =>
      cases hq : q a with
      | false =>
        simp [List.filter_cons, hp, hq, hrest]
        omega
      | true => exact absurd ⟨hp, hq⟩ (hdisj a (List.mem_cons_self a as))

theorem length_filter_comp_map {β : Type} (f : Contact → β) (q : β → Bool) :
    ∀ l : List Contact,
      (l.filter (fun a => q (f a))).length = ((l.map f).filter q).length := by
  intro l
  induction l with
  | nil => rfl
  | cons a as ih =>
    simp only [List.filter_cons, List.map_cons]
    cases hq : q (f a) with
    | false => simpa [hq] using ih
    | true => simpa [hq] using ih

/-- Two distinct members force length at least two. -/
theorem two_le_length_of_two_mem {α : Type} {l : List α} {a b : α}
    (ha : a ∈ l) (hb : b ∈ l) (hab : a ≠ b) : 2 ≤ l.length := by
  obtain ⟨s, t, rfl⟩ := List.mem_iff_append.mp ha
  rcases List.mem_append.mp hb with h1 | h1
  · rcases s with _ | ⟨x, xs⟩
    · simp at h1
    · simp only [List.length_append, List.length_cons]
      omega
  · rcases List.mem_cons.mp h1 with rfl | h2
    · exact absurd rfl hab
    · rcases t with _ | ⟨y, ys⟩
      · simp at h2
      · simp only [List.length_append, List.length_cons]
        omega

/-- The multiplicity of a non-blank key `k` in the key list that feeds
`dupKeys` equals the size of `k`'s group. -/
theorem keys_count_eq_group_length (k : String) (htrim : sqliteTrim k ≠ "") :
    ∀ cs : List Contact,
      (((cs.filterMap (fun c => c.dedupe_key)).filter (fun k2 => sqliteTrim k2 ≠ "")).count k)
        = (cs.filter (fun c => c.dedupe_key = some k)).length := by
  intro cs
  induction cs with
  | nil => rfl
  | cons c cs ih =>
    cases hkey : c.dedupe_key with
    | none =>
      simp only [List.filterMap_cons, hkey]
      rw [List.filter_cons]
      have hkc : (decide (c.dedupe_key = some k)) = false := by simp [hkey]
      rw [hkc, if_neg Bool.false_ne_true]
      exact ih
    | some k2 =>
      simp only [List.filterMap_cons, hkey]
      by_cases h2 : k2 = k
      · subst h2
        rw [List.filter_cons]
        rw [decide_eq_true htrim, if_pos rfl, List.count_cons_self]
        rw [List.filter_cons]
        rw [decide_eq_true hkey, if_pos rfl, List.length_cons, ih]
      · rw [List.filter_cons]
        by_cases ht : sqliteTrim k2 ≠ ""
        · rw [decide_eq_true ht, if_pos rfl, List.count_cons_of_ne (fun h => h2 h.symm)]
          rw [List.filter_cons]
          have hkc : (decide (c.dedupe_key = some k)) = false := by simp [hkey, h2]
          rw [hkc, if_neg Bool.false_ne_true]
          exact ih
        · rw [decide_eq_false ht, if_neg Bool.false_ne_true]
          rw [List.filter_cons]
          have hkc : (decide (c.dedupe_key = some k)) = false := by simp [hkey, h2]
          rw [hkc, if_neg Bool.false_ne_true]
          exact ih

/-- Membership in `dupKeys`: exactly the non-blank keys held by at least
two contacts. -/
theorem mem_dupKeys_iff (cs : List Contact) (k : String) :
    k ∈ dupKeys cs ↔ sqliteTrim k ≠ ""
      ∧ 2 ≤ (cs.filter (fun c => c.dedupe_key = some k)).length := by
  unfold dupKeys
  simp only [List.mem_filter, List.mem_dedup, decide_eq_true_eq]
  constructor
  · rintro ⟨⟨hmem, htrim⟩, hcount⟩
    have hgl := keys_count_eq_group_length k htrim cs
    exact ⟨htrim, by omega⟩
  · rintro ⟨htrim, hlen⟩
    have hcount := keys_count_eq_group_length k htrim cs
    have hpos : 0 < ((cs.filterMap (fun c => c.dedupe_key)).filter
        (fun k2 => sqliteTrim k2 ≠ "")).count k := by omega
    have hmem := List.mem_filter.mp (List.count_pos_iff.mp hpos)
    exact ⟨⟨hmem.1, htrim⟩, by omega⟩

theorem keyInList_nil (c : Contact) : keyInList c [] = false := by
  unfold keyInList
  cases c.dedupe_key <;> rfl

theorem keyInList_append_single_of_ne {c : Contact} {P : List String} {k : String}
    (h : c.dedupe_key ≠ some k) : keyInList c (P ++ [k]) = keyInList c P := by
  unfold keyInList
  cases hkey : c.dedupe_key with
  | none => rfl
  | some k2 =>
    have hne : k2 ≠ k := fun he => h (by rw [hkey, he])
    simp [List.mem_append, hne]

theorem keyInList_append_single_self {c : Contact} {P : List String} {k : String}
    (h : c.dedupe_key = some k) : keyInList c (P ++ [k]) = true := by
  unfold keyInList
  rw [h]
  simp [List.mem_append]

theorem keyInList_of_not_mem {c : Contact} {P : List String} {k : String}
    (hkey : c.dedupe_key = some k) (h : k ∉ P) : keyInList c P = false := by
  unfold keyInList
  rw [hkey]
  simp [h]

/-- Losers of keys not yet merged are still present, so re-querying the
group of a fresh key `k` from the filtered table gives the full group. -/
theorem group_eq_of_not_mem (cs1 : List Contact) (P : List String) (k : String)
    (hkP : k ∉ P) :
    (survFilter cs1 P).filter (fun c => c.dedupe_key = some k)
      = cs1.filter (fun c => c.dedupe_key = some k) := by
  unfold survFilter
  rw [List.filter_filter]
  apply List.filter_congr
  intro c _
  by_cases hk : c.dedupe_key = some k
  · rw [keyInList_of_not_mem hk hkP]
    simp [hk]
  · simp [hk]

/-- One merge-loop iteration, seen through the invariant: merging key `k`
extends the already-merged key set `P` by `k`, and the deletion counter
accounts exactly for the losers of the merged keys. -/
theorem mergeGroup_invariant (cs1 : List Contact) (hnd : NodupIds cs1)
    (k : String) (htrim : sqliteTrim k ≠ "") (P : List String) (hkP : k ∉ P)
    (st : SweepSt) (hc : st.contacts = survFilter cs1 P)
    (hd : st.deleted
      = (cs1.filter (fun c => hasSmallerSameKey cs1 c && keyInList c P)).length) :
    (mergeGroup st k).contacts = survFilter cs1 (P ++ [k])
    ∧ (mergeGroup st k).deleted
        = (cs1.filter (fun c => hasSmallerSameKey cs1 c && keyInList c (P ++ [k]))).length := by
  have hgroup : st.contacts.filter (fun c => c.dedupe_key = some k)
      = cs1.filter (fun c => c.dedupe_key = some k) := by
    rw [hc]
    exact group_eq_of_not_mem cs1 P k hkP
  have hperm : List.Perm (groupIds st k)
      ((cs1.filter (fun c => c.dedupe_key = some k)).map (fun c => c.id)) := by
    unfold groupIds
    rw [hgroup]
    exact List.perm_insertionSort _ _
  have hsorted : List.Sorted (· ≤ ·) (groupIds st k) := List.sorted_insertionSort _ _
  have hgnodup : ((cs1.filter (fun c => c.dedupe_key = some k)).map (fun c => c.id)).Nodup :=
    List.Nodup.sublist (List.Sublist.map _ (List.filter_sublist cs1)) hnd
  have hidnodup : (groupIds st k).Nodup := hperm.nodup_iff.mpr hgnodup
  have hmem : ∀ x : Nat, x ∈ groupIds st k
      ↔ ∃ c, c ∈ cs1 ∧ c.dedupe_key = some k ∧ c.id = x := by
    intro x
    rw [hperm.mem_iff]
    simp only [List.mem_map, List.mem_filter, decide_eq_true_eq]
    constructor
    · rintro ⟨c, ⟨hc1, hc2⟩, hc3⟩
      exact ⟨c, hc1, hc2, hc3⟩
    · rintro ⟨c, hc1, hc2, hc3⟩
      exact ⟨c, ⟨hc1, hc2⟩, hc3⟩
  have hinj : ∀ a ∈ cs1, ∀ b ∈ cs1, a.id = b.id → a = b := by
    intro a ha b hb hab
    exact List.inj_on_of_nodup_map hnd ha hb hab
  rcases hids : groupIds st k with _ | ⟨w, ls⟩
  · -- empty group: no contact holds key k at all
    have hmg : mergeGroup st k = st := by
      unfold mergeGroup
      rw [hids]
    have hnok : ∀ c ∈ cs1, c.dedupe_key ≠ some k := by
      intro c hcm hck
      have hx : c.id ∈ groupIds st k := (hmem c.id).mpr ⟨c, hcm, hck, rfl⟩
      rw [hids] at hx
      simp at hx
    constructor
    · rw [hmg, hc]
      unfold survFilter
      apply List.filter_congr
      intro c hcm
      rw [keyInList_append_single_of_ne (hnok c hcm)]
    · rw [hmg, hd]
      congr 1
      apply List.filter_congr
      intro c hcm
      rw [keyInList_append_single_of_ne (hnok c hcm)]
  · -- non-empty group with winner w and (possibly empty) tail ls
    have hwle : ∀ x ∈ ls, w ≤ x := (List.sorted_cons.mp (hids ▸ hsorted)).1
    have hwnin : w ∉ ls := (List.nodup_cons.mp (hids ▸ hidnodup)).1
    have hwlt : ∀ x ∈ ls, w < x := fun x hx =>
      lt_of_le_of_ne (hwle x hx) (fun he => hwnin (he ▸ hx))
    have hmem' : ∀ x : Nat, (x = w ∨ x ∈ ls)
        ↔ ∃ c, c ∈ cs1 ∧ c.dedupe_key = some k ∧ c.id = x := by
      intro x
      rw [← List.mem_cons, ← hids]
      exact hmem x
    obtain ⟨m, hm1, hm2, hm3⟩ := (hmem' w).mp (Or.inl rfl)
    have hlosEq : ∀ c, c ∈ cs1 → c.dedupe_key = some k →
        hasSmallerSameKey cs1 c = ls.contains c.id := by
      intro c hcm hck
      have hcid : c.id = w ∨ c.id ∈ ls := (hmem' c.id).mpr ⟨c, hcm, hck, rfl⟩
      rcases hcid with hw | hl
      · have h1 : hasSmallerSameKey cs1 c = false := by
          unfold hasSmallerSameKey
          rw [hck]
          show (decide (sqliteTrim k ≠ "") && cs1.any
            (fun c2 => decide (c2.dedupe_key = some k) && decide (c2.id < c.id))) = false
          have hany : cs1.any
              (fun c2 => decide (c2.dedupe_key = some k) && decide (c2.id < c.id)) = false := by
            rw [List.any_eq_false]
            intro c2 hc2m hp
            rw [Bool.and_eq_true, decide_eq_true_eq, decide_eq_true_eq] at hp
            obtain ⟨hk2, hlt⟩ := hp
            have h3 : c2.id = w ∨ c2.id ∈ ls := (hmem' c2.id).mpr ⟨c2, hc2m, hk2, rfl⟩
            rcases h3 with h3 | h3
            · omega
            · have := hwlt c2.id h3
              omega
          rw [hany, Bool.and_false]
        have h2 : ls.contains c.id = false := by
          have he : ls.contains c.id = decide (c.id ∈ ls) := by
            simp [List.contains, List.elem_eq_mem]
          rw [he]
          exact decide_eq_false (hw ▸ hwnin)
        rw [h1, h2]
      · have h2 : ls.contains c.id = true := by
          have he : ls.contains c.id = decide (c.id ∈ ls) := by
            simp [List.contains, List.elem_eq_mem]
          rw [he]
          exact decide_eq_true hl
        have h1 : hasSmallerSameKey cs1 c = true := by
          unfold hasSmallerSameKey
          rw [hck]
          show (decide (sqliteTrim k ≠ "") && cs1.any
            (fun c2 => decide (c2.dedupe_key = some k) && decide (c2.id < c.id))) = true
          have hany : cs1.any
              (fun c2 => decide (c2.dedupe_key = some k) && decide (c2.id < c.id)) = true := by
            rw [List.any_eq_true]
            refine ⟨m, hm1, ?_⟩
            rw [Bool.and_eq_true, decide_eq_true_eq, decide_eq_true_eq]
            exact ⟨hm2, by rw [hm3]; exact hwlt c.id hl⟩
          rw [hany, decide_eq_true htrim, Bool.true_and]
        rw [h1, h2]
    have hnotls : ∀ c, c ∈ cs1 → c.dedupe_key ≠ some k → ls.contains c.id = false := by
      intro c hcm hck
      cases hcon : ls.contains c.id with
      | false => rfl
      | true =>
        have hmemls : c.id ∈ ls := by
          have he : ls.contains c.id = decide (c.id ∈ ls) := by
            simp [List.contains, List.elem_eq_mem]
          rw [he] at hcon
          exact of_decide_eq_true hcon
        obtain ⟨c2, hc2m, hc2k, hc2id⟩ := (hmem' c.id).mp (Or.inr hmemls)
        have : c2 = c := hinj c2 hc2m c hcm hc2id
        exact absurd (this ▸ hc2k) hck
    rcases hls : ls with _ | ⟨a, ls'⟩
    · -- singleton group: nothing merged
      subst hls
      have hmg : mergeGroup st k = st := by
        unfold mergeGroup
        rw [hids]
      constructor
      · rw [hmg, hc]
        unfold survFilter
        apply List.filter_congr
        intro c hcm
        by_cases hck : c.dedupe_key = some k
        · have h1 := hlosEq c hcm hck
          simp only [List.contains] at h1
          rw [h1]
          simp
        · rw [keyInList_append_single_of_ne hck]
      · rw [hmg, hd]
        congr 1
        apply List.filter_congr
        intro c hcm
        by_cases hck : c.dedupe_key = some k
        · have h1 := hlosEq c hcm hck
          simp only [List.contains] at h1
          rw [h1]
          simp
        · rw [keyInList_append_single_of_ne hck]
    · -- a real merge: losers a :: ls'
      subst hls
      have hmg : mergeGroup st k =
          { contacts := st.contacts.filter (fun c => ¬ (a :: ls').contains c.id),
            notes := (a :: ls').foldl (fun ns l => repointNote w l ns) st.notes,
            history := (a :: ls').foldl (fun hs l => repointHist w l hs) st.history,
            sales := (a :: ls').foldl (fun ss l => repointSale w l ss) st.sales,
            deleted := st.deleted + (a :: ls').length } := by
        unfold mergeGroup
        rw [hids]
      constructor
      · rw [hmg]
        show st.contacts.filter (fun c => ¬ (a :: ls').contains c.id)
            = survFilter cs1 (P ++ [k])
        rw [hc]
        unfold survFilter
        rw [List.filter_filter]
        apply List.filter_congr
        intro c hcm
        by_cases hck : c.dedupe_key = some k
        · rw [keyInList_append_single_self hck]
          rw [keyInList_of_not_mem hck hkP]
          rw [← hlosEq c hcm hck]
          cases hsm : hasSmallerSameKey cs1 c <;> simp [hsm]
        · rw [keyInList_append_single_of_ne hck]
          rw [hnotls c hcm hck]
          simp
      · rw [hmg]
        show st.deleted + (a :: ls').length
            = (cs1.filter (fun c =>
                hasSmallerSameKey cs1 c && keyInList c (P ++ [k]))).length
        rw [hd]
        -- split the new filter into the old one and the key-k losers
        have hsplit : cs1.filter (fun c => hasSmallerSameKey cs1 c && keyInList c (P ++ [k]))
            = cs1.filter (fun c => (hasSmallerSameKey cs1 c && keyInList c P)
                || (hasSmallerSameKey cs1 c && decide (c.dedupe_key = some k))) := by
          apply List.filter_congr
          intro c hcm
          by_cases hck : c.dedupe_key = some k
          · rw [keyInList_append_single_self hck, keyInList_of_not_mem hck hkP,
              decide_eq_true hck]
            cases hsm : hasSmallerSameKey cs1 c <;> simp
          · rw [keyInList_append_single_of_ne hck, decide_eq_false hck]
            cases hsm : hasSmallerSameKey cs1 c <;> simp
        rw [hsplit]
        rw [length_filter_or_disj _ _ cs1 (by
          intro c hcm h12
          obtain ⟨h1, h2⟩ := h12
          rw [Bool.and_eq_true] at h1 h2
          have hck := of_decide_eq_true h2.2
          have hkp := keyInList_of_not_mem hck hkP
          rw [hkp] at h1
          simp at h1)]
        -- the key-k losers are exactly the tail of the sorted group
        have htail : (cs1.filter (fun c =>
            hasSmallerSameKey cs1 c && decide (c.dedupe_key = some k))).length
            = (a :: ls').length := by
          have hpt : cs1.filter (fun c =>
              hasSmallerSameKey cs1 c && decide (c.dedupe_key = some k))
              = cs1.filter (fun c =>
                  (a :: ls').contains c.id && decide (c.dedupe_key = some k)) := by
            apply List.filter_congr
            intro c hcm
            by_cases hck : c.dedupe_key = some k
            · rw [hlosEq c hcm hck]
            · rw [decide_eq_false hck]
              simp
          rw [hpt]
          have hff : cs1.filter (fun c =>
              (a :: ls').contains c.id && decide (c.dedupe_key = some k))
              = (cs1.filter (fun c => decide (c.dedupe_key = some k))).filter
                  (fun c => (a :: ls').contains c.id) := by
            rw [List.filter_filter]
          rw [hff]
          rw [length_filter_comp_map (fun c => c.id) (fun x => (a :: ls').contains x)
            (cs1.filter (fun c => decide (c.dedupe_key = some k)))]
          have hpf : List.Perm
              (((w : Nat) :: a :: ls').filter (fun x => (a :: ls').contains x))
              (((cs1.filter (fun c => decide (c.dedupe_key = some k))).map
                  (fun c => c.id)).filter (fun x => (a :: ls').contains x)) :=
            List.Perm.filter _ (hids ▸ hperm)
          rw [← hpf.length_eq]
          have hqw : ((a :: ls').contains w) = false := by
            have he : (a :: ls').contains w = decide (w ∈ a :: ls') := by
              simp [List.contains, List.elem_eq_mem]
            rw [he]
            exact decide_eq_false hwnin
          rw [List.filter_cons, hqw, if_neg Bool.false_ne_true]
          have hself : ∀ x ∈ a :: ls', ((a :: ls').contains x) = true := by
            intro x hx
            have he : (a :: ls').contains x = decide (x ∈ a :: ls') := by
              simp [List.contains, List.elem_eq_mem]
            rw [he]
            exact decide_eq_true hx
          rw [List.filter_eq_self.mpr hself]
        omega

/-- The whole merge loop, by induction over the distinct duplicate keys. -/
theorem foldl_mergeGroup_invariant (cs1 : List Contact) (hnd : NodupIds cs1) :
    ∀ (ks P : List String), (P ++ ks).Nodup → (∀ k ∈ ks, sqliteTrim k ≠ "") →
      ∀ st : SweepSt, st.contacts = survFilter cs1 P →
        st.deleted
          = (cs1.filter (fun c => hasSmallerSameKey cs1 c && keyInList c P)).length →
        (ks.foldl mergeGroup st).contacts = survFilter cs1 (P ++ ks)
        ∧ (ks.foldl mergeGroup st).deleted
            = (cs1.filter (fun c =>
                hasSmallerSameKey cs1 c && keyInList c (P ++ ks))).length := by
  intro ks
  induction ks with
  | nil =>
    intro P _ _ st hc hd
    simp only [List.foldl_nil, List.append_nil]
    exact ⟨hc, hd⟩
  | cons k ks ih =>
    intro P hnodup htrims st hc hd
    have hkP : k ∉ P := by
      rw [List.nodup_append] at hnodup
      intro hkmem
      exact hnodup.2.2 hkmem (List.mem_cons_self k ks)
    obtain ⟨hc2, hd2⟩ := mergeGroup_invariant cs1 hnd k
      (htrims k (List.mem_cons_self k ks)) P hkP st hc hd
    have hassoc : (P ++ [k]) ++ ks = P ++ k :: ks := by simp
    have hres := ih (P ++ [k]) (by rw [hassoc]; exact hnodup)
      (fun k2 hk2 => htrims k2 (List.mem_cons_of_mem k hk2)) (mergeGroup st k) hc2 hd2
    rw [List.foldl_cons]
    rw [← hassoc]
    exact hres

/-- A merge loser's key is always listed in `dupKeys`. -/
theorem loser_key_in_dupKeys (cs1 : List Contact) (c : Contact) (hcm : c ∈ cs1)
    (hsm : hasSmallerSameKey cs1 c = true) : keyInList c (dupKeys cs1) = true := by
  unfold hasSmallerSameKey at hsm
  cases hkey : c.dedupe_key with
  | none => rw [hkey] at hsm; simp at hsm
  | some k0 =>
    rw [hkey] at hsm
    have hsm' : (decide (sqliteTrim k0 ≠ "") && cs1.any
        (fun c2 => decide (c2.dedupe_key = some k0) && decide (c2.id < c.id))) = true := hsm
    rw [Bool.and_eq_true] at hsm'
    obtain ⟨htr, hany⟩ := hsm'
    rw [List.any_eq_true] at hany
    obtain ⟨c2, hc2m, hp⟩ := hany
    rw [Bool.and_eq_true, decide_eq_true_eq, decide_eq_true_eq] at hp
    obtain ⟨hc2k, hlt⟩ := hp
    have htrim0 : sqliteTrim k0 ≠ "" := of_decide_eq_true htr
    have hc2ne : c2 ≠ c := by
      intro he
      rw [he] at hlt
      exact lt_irrefl _ hlt
    have h2le : 2 ≤ (cs1.filter (fun x => x.dedupe_key = some k0)).length :=
      two_le_length_of_two_mem (List.mem_filter.mpr ⟨hc2m, by simp [hc2k]⟩)
        (List.mem_filter.mpr ⟨hcm, by simp [hkey]⟩) hc2ne
    have hkin : k0 ∈ dupKeys cs1 := (mem_dupKeys_iff cs1 k0).mpr ⟨htrim0, h2le⟩
    unfold keyInList
    rw [hkey]
    show (dupKeys cs1).contains k0 = true
    have he : (dupKeys cs1).contains k0 = decide (k0 ∈ dupKeys cs1) := by
      simp [List.contains, List.elem_eq_mem]
    rw [he]
    exact decide_eq_true hkin

/-- Ids are untouched by the key-recomputation maps. -/
theorem recompute_preserves_ids (cs : List Contact) :
    ((cs.map clearKey).map recomputeKey).map (fun c => c.id) = cs.map (fun c => c.id) := by
  rw [List.map_map, List.map_map]
  exact List.map_congr_left (fun c _ => rfl)

theorem nodupIds_recompute {cs : List Contact} (h : NodupIds cs) :
    NodupIds ((cs.map clearKey).map recomputeKey) := by
  unfold NodupIds
  rw [recompute_preserves_ids]
  exact h

/-- Exact characterization of `dedupe_database`: the surviving contacts are
the recomputed contacts minus the losers, and the returned count is the
number of losers. -/
theorem dedupe_database_characterization (db : DB) (hnd : NodupIds db.contacts) :
    (dedupe_database db).1.contacts
      = sweepSurvivors ((db.contacts.map clearKey).map recomputeKey)
    ∧ (dedupe_database db).2
      = (((db.contacts.map clearKey).map recomputeKey).filter
          (fun c => hasSmallerSameKey ((db.contacts.map clearKey).map recomputeKey) c)).length := by
  have hnd1 : NodupIds ((db.contacts.map clearKey).map recomputeKey) := nodupIds_recompute hnd
  have hnodup : (([] : List String) ++ dupKeys ((db.contacts.map clearKey).map recomputeKey)).Nodup := by
    simp only [List.nil_append]
    exact List.Nodup.filter _ (List.nodup_dedup _)
  have htrims : ∀ k ∈ dupKeys ((db.contacts.map clearKey).map recomputeKey), sqliteTrim k ≠ "" :=
    fun k hk => ((mem_dupKeys_iff _ k).mp hk).1
  have hsurv0 : survFilter ((db.contacts.map clearKey).map recomputeKey) [] =
      (db.contacts.map clearKey).map recomputeKey := by
    unfold survFilter
    rw [List.filter_eq_self]
    intro c _
    rw [keyInList_nil]
    simp
  have hdel0 : (0 : Nat) = (((db.contacts.map clearKey).map recomputeKey).filter
      (fun c => hasSmallerSameKey ((db.contacts.map clearKey).map recomputeKey) c
        && keyInList c [])).length := by
    have hnil : ((db.contacts.map clearKey).map recomputeKey).filter
        (fun c => hasSmallerSameKey ((db.contacts.map clearKey).map recomputeKey) c
          && keyInList c []) = [] := by
      rw [List.filter_eq_nil_iff]
      intro c _
      rw [keyInList_nil]
      simp
    rw [hnil]
    rfl
  obtain ⟨hc, hdel⟩ := foldl_mergeGroup_invariant
    ((db.contacts.map clearKey).map recomputeKey) hnd1
    (dupKeys ((db.contacts.map clearKey).map recomputeKey)) [] hnodup htrims
    { contacts := (db.contacts.map clearKey).map recomputeKey, notes := db.notes,
      history := db.status_history, sales := db.sales, deleted := 0 }
    hsurv0.symm hdel0
  constructor
  · show ((dupKeys ((db.contacts.map clearKey).map recomputeKey)).foldl mergeGroup
      { contacts := (db.contacts.map clearKey).map recomputeKey, notes := db.notes,
        history := db.status_history, sales := db.sales, deleted := 0 }).contacts = _
    rw [hc]
    simp only [List.nil_append]
    unfold survFilter sweepSurvivors
    apply List.filter_congr
    intro c hcm
    cases hsm : hasSmallerSameKey ((db.contacts.map clearKey).map recomputeKey) c with
    | false => simp [hsm]
    | true =>
      rw [loser_key_in_dupKeys _ c hcm hsm]
      simp [hsm]
  · show ((dupKeys ((db.contacts.map clearKey).map recomputeKey)).foldl mergeGroup
      { contacts := (db.contacts.map clearKey).map recomputeKey, notes := db.notes,
        history := db.status_history, sales := db.sales, deleted := 0 }).deleted = _
    rw [hdel]
    simp only [List.nil_append]
    congr 1
    apply List.filter_congr
    intro c hcm
    cases hsm : hasSmallerSameKey ((db.contacts.map clearKey).map recomputeKey) c with
    | false => simp [hsm]
    | true =>
      rw [loser_key_in_dupKeys _ c hcm hsm]
      simp [hsm]

/-- Claim C4: for every duplicate group found by a sweep, the surviving
contact is the group member with the smallest id (`sweepSurvivors` keeps exactly
the members minimal by id among the holders of their non-blank recomputed
key, and every contact with a blank key), and the sweep returns the number
of contact rows it removed. -/
theorem c4_sweep_winner_smallest_id (db : DB) (hnd : NodupIds db.contacts) :
    (dedupe_database db).1.contacts
      = sweepSurvivors ((db.contacts.map clearKey).map recomputeKey)
    ∧ (dedupe_database db).2
      = db.contacts.length - (dedupe_database db).1.contacts.length := by
  obtain ⟨hc, hdel⟩ := dedupe_database_characterization db hnd
  refine ⟨hc, ?_⟩
  rw [hdel, hc]
  have hlen : db.contacts.length = ((db.contacts.map clearKey).map recomputeKey).length := by
    rw [List.length_map, List.length_map]
  rw [hlen]
  have hsurvlen : (sweepSurvivors ((db.contacts.map clearKey).map recomputeKey)).length
      = (((db.contacts.map clearKey).map recomputeKey).filter
          (fun c => ! hasSmallerSameKey ((db.contacts.map clearKey).map recomputeKey) c)).length := by
    unfold sweepSurvivors
    congr 1
    apply List.filter_congr
    intro c _
    cases hsm : hasSmallerSameKey ((db.contacts.map clearKey).map recomputeKey) c <;>
      simp [hsm]
  have hpart := @List.length_eq_length_filter_add Contact
    ((db.contacts.map clearKey).map recomputeKey)
    (fun c => hasSmallerSameKey ((db.contacts.map clearKey).map recomputeKey) c)
  rw [hsurvlen]
  omega

/-- Claim C4 witness. -/
theorem c4_sweep_winner_smallest_id_witness :
    NodupIds dbDupPair.contacts
    ∧ ((dedupe_database dbDupPair).1.contacts
        = sweepSurvivors ((dbDupPair.contacts.map clearKey).map recomputeKey)
      ∧ (dedupe_database dbDupPair).2
        = dbDupPair.contacts.length - (dedupe_database dbDupPair).1.contacts.length) :=
  ⟨by decide, c4_sweep_winner_smallest_id dbDupPair (by decide)⟩

/-- After a sweep no two survivors share a non-blank key. -/
theorem dupKeys_sweepSurvivors_nil (cs1 : List Contact) (hnd : NodupIds cs1) :
    dupKeys (sweepSurvivors cs1) = [] := by
  have hcontra : ∀ (k : String), sqliteTrim k ≠ "" →
      ∀ x y : Contact, x ∈ sweepSurvivors cs1 → y ∈ cs1 →
        x.dedupe_key = some k → y.dedupe_key = some k → y.id < x.id → False := by
    intro k htrim x y hx hy hxk hyk hlt
    have hxc := List.mem_filter.mp hx
    have hsm : hasSmallerSameKey cs1 x = true := by
      unfold hasSmallerSameKey
      rw [hxk]
      show (decide (sqliteTrim k ≠ "") && cs1.any
        (fun c2 => decide (c2.dedupe_key = some k) && decide (c2.id < x.id))) = true
      rw [decide_eq_true htrim, Bool.true_and, List.any_eq_true]
      refine ⟨y, hy, ?_⟩
      rw [Bool.and_eq_true, decide_eq_true_eq, decide_eq_true_eq]
      exact ⟨hyk, hlt⟩
    have hnot := of_decide_eq_true hxc.2
    exact hnot (by rw [hsm])
  unfold dupKeys
  rw [List.filter_eq_nil_iff]
  intro k hkdedup
  have hkk := List.mem_dedup.mp hkdedup
  have htrim : sqliteTrim k ≠ "" := by
    have h2 := (List.mem_filter.mp hkk).2
    simpa using h2
  intro hdec
  have hcount : 1 < ((((sweepSurvivors cs1).filterMap (fun c => c.dedupe_key)).filter
      (fun k2 => sqliteTrim k2 ≠ "")).count k) := of_decide_eq_true hdec
  rw [keys_count_eq_group_length k htrim] at hcount
  obtain ⟨a, b, t, hab⟩ : ∃ a b t,
      (sweepSurvivors cs1).filter (fun c => c.dedupe_key = some k) = a :: b :: t := by
    rcases hl : (sweepSurvivors cs1).filter (fun c => c.dedupe_key = some k)
      with _ | ⟨a, _ | ⟨b, t⟩⟩
    · rw [hl] at hcount; simp at hcount
    · rw [hl] at hcount; simp at hcount
    · exact ⟨a, b, t, hl⟩
  have ham : a ∈ (sweepSurvivors cs1).filter (fun c => c.dedupe_key = some k) := by
    rw [hab]; exact List.mem_cons_self a (b :: t)
  have hbm : b ∈ (sweepSurvivors cs1).filter (fun c => c.dedupe_key = some k) := by
    rw [hab]; exact List.mem_cons_of_mem a (List.mem_cons_self b t)
  have ham' := List.mem_filter.mp ham
  have hbm' := List.mem_filter.mp hbm
  have hak : a.dedupe_key = some k := by simpa using ham'.2
  have hbk : b.dedupe_key = some k := by simpa using hbm'.2
  have hacs : a ∈ cs1 := (List.mem_filter.mp ham'.1).1
  have hbcs : b ∈ cs1 := (List.mem_filter.mp hbm'.1).1
  -- distinct ids
  have hsubids : NodupIds ((sweepSurvivors cs1).filter (fun c => c.dedupe_key = some k)) := by
    unfold NodupIds
    apply List.Nodup.sublist
      (List.Sublist.map _ ((List.filter_sublist _).trans (List.filter_sublist cs1)))
    exact hnd
  have hne : a.id ≠ b.id := by
    rw [hab] at hsubids
    unfold NodupIds at hsubids
    rw [List.map_cons, List.nodup_cons] at hsubids
    intro he
    exact hsubids.1 (by rw [List.map_cons, he]; exact List.mem_cons_self _ _)
  rcases Nat.lt_trichotomy a.id b.id with h | h | h
  · exact hcontra k htrim b a hbm'.1 hacs hbk hak h
  · exact hne h
  · exact hcontra k htrim a b ham'.1 hbcs hak hbk h

/-- A sweep of a store whose contacts already carry their recomputed keys
and hold no duplicate non-blank key deletes nothing and changes nothing. -/
theorem dedupe_database_of_clean (D : DB)
    (hfix : (D.contacts.map clearKey).map recomputeKey = D.contacts)
    (hdup : dupKeys D.contacts = []) :
    (dedupe_database D).2 = 0 ∧ (dedupe_database D).1.contacts = D.contacts := by
  constructor
  · show ((dupKeys ((D.contacts.map clearKey).map recomputeKey)).foldl mergeGroup
      { contacts := (D.contacts.map clearKey).map recomputeKey, notes := D.notes,
        history := D.status_history, sales := D.sales, deleted := 0 }).deleted = 0
    rw [hfix, hdup]
    rfl
  · show ((dupKeys ((D.contacts.map clearKey).map recomputeKey)).foldl mergeGroup
      { contacts := (D.contacts.map clearKey).map recomputeKey, notes := D.notes,
        history := D.status_history, sales := D.sales, deleted := 0 }).contacts = D.contacts
    rw [hfix, hdup]
    rfl

/-- Claim C5: a second sweep immediately after a first removes zero
contacts — after the first sweep no two contacts share a non-blank dedupe
key, so the second sweep deletes nothing, returns `0`, and leaves the
contact table unchanged. -/
theorem c5_sweep_idempotent (db : DB) (hnd : NodupIds db.contacts) :
    (dedupe_database (dedupe_database db).1).2 = 0
    ∧ (dedupe_database (dedupe_database db).1).1.contacts = (dedupe_database db).1.contacts
    ∧ noDupKeysB (dedupe_database db).1.contacts = true := by
  obtain ⟨hc, _⟩ := dedupe_database_characterization db hnd
  have hnd1 : NodupIds ((db.contacts.map clearKey).map recomputeKey) := nodupIds_recompute hnd
  have hfix : (((dedupe_database db).1.contacts.map clearKey).map recomputeKey)
      = (dedupe_database db).1.contacts := by
    rw [hc, List.map_map]
    have hpt : ∀ x ∈ sweepSurvivors ((db.contacts.map clearKey).map recomputeKey),
        (recomputeKey ∘ clearKey) x = x := by
      intro x hx
      have hxc := (List.mem_filter.mp hx).1
      rw [List.map_map] at hxc
      obtain ⟨y, _, rfl⟩ := List.mem_map.mp hxc
      rfl
    calc (sweepSurvivors ((db.contacts.map clearKey).map recomputeKey)).map
          (recomputeKey ∘ clearKey)
        = (sweepSurvivors ((db.contacts.map clearKey).map recomputeKey)).map (fun x => x) :=
          List.map_congr_left hpt
      _ = sweepSurvivors ((db.contacts.map clearKey).map recomputeKey) := List.map_id' _
  have hdup0 : dupKeys ((dedupe_database db).1.contacts) = [] := by
    rw [hc]
    exact dupKeys_sweepSurvivors_nil _ hnd1
  obtain ⟨h1, h2⟩ := dedupe_database_of_clean ((dedupe_database db).1) hfix hdup0
  refine ⟨h1, h2, ?_⟩
  unfold noDupKeysB
  rw [hdup0]
  rfl

/-- Claim C5 witness. -/
theorem c5_sweep_idempotent_witness :
    NodupIds dbDupPair.contacts
    ∧ ((dedupe_database (dedupe_database dbDupPair).1).2 = 0
      ∧ (dedupe_database (dedupe_database dbDupPair).1).1.contacts
          = (dedupe_database dbDupPair).1.contacts
      ∧ noDupKeysB (dedupe_database dbDupPair).1.contacts = true) :=
  ⟨by decide, c5_sweep_idempotent dbDupPair (by decide)⟩

/-!  Lemmas supporting the batch-import error-handling claim.  -/

/-- A skipped row's diagnostic is always `rowDiag` of that row. -/
theorem processRow_diag (now : String) (db : DB) (idx : Nat) (r : Row) :
    ∀ (db1 : DB) (d : Diag), processRow now db idx r = (db1, some d) → d = rowDiag idx r := by
  intro db1 d h
  simp only [processRow] at h
  repeat' split at h
  all_goals
    first
      | (have h2 : some (rowDiag idx r) = some d := congrArg Prod.snd h
         exact (Option.some.inj h2).symm)
      | (have h2 : (none : Option Diag) = some d := congrArg Prod.snd h
         cases h2)

/-- Every row is either written or diagnosed, the loop emits no commit
event, and every diagnostic is the `rowDiag` of one of the batch's rows. -/
theorem upsertLoop_props (now : String) :
    ∀ (rows : List Row) (db : DB) (i : Nat),
      (upsertLoop now db i rows).2.1 + (upsertLoop now db i rows).2.2.1.length = rows.length
      ∧ (∀ e ∈ (upsertLoop now db i rows).2.2.2, isCommitEv e = false)
      ∧ (∀ d ∈ (upsertLoop now db i rows).2.2.1,
          ∃ j, ∃ hj : j < rows.length, d = rowDiag (i + j) (rows.get ⟨j, hj⟩)) := by
  intro rows
  induction rows with
  | nil =>
    intro db i
    refine ⟨rfl, ?_, ?_⟩ <;> intro x hx <;> simp [upsertLoop] at hx
  | cons r rs ih =>
    intro db i
    rcases hpr : processRow now db i r with ⟨db1, dopt⟩
    obtain ⟨ih1, ih2, ih3⟩ := ih db1 (i + 1)
    rcases hrec : upsertLoop now db1 (i + 1) rs with ⟨dbF, n, ds, evs⟩
    rw [hrec] at ih1 ih2 ih3
    have ih1' : n + ds.length = rs.length := ih1
    have ih2' : ∀ e ∈ evs, isCommitEv e = false := ih2
    have ih3' : ∀ d ∈ ds, ∃ j, ∃ hj : j < rs.length, d = rowDiag (i + 1 + j) (rs.get ⟨j, hj⟩) :=
      ih3
    cases dopt with
    | none =>
      have hstep : upsertLoop now db i (r :: rs) = (dbF, n + 1, ds, Ev.rowWritten i :: evs) := by
        simp only [upsertLoop, hpr, hrec]
      rw [hstep]
      refine ⟨?_, ?_, ?_⟩
      · show n + 1 + ds.length = rs.length + 1
        omega
      · intro e he
        rcases List.mem_cons.mp he with rfl | he2
        · rfl
        · exact ih2' e he2
      · intro d hd
        obtain ⟨j, hj, hdj⟩ := ih3' d hd
        refine ⟨j + 1, by simpa using Nat.succ_lt_succ hj, ?_⟩
        rw [hdj]
        have : i + 1 + j = i + (j + 1) := by omega
        rw [this]
        rfl
    | some dg =>
      have hstep : upsertLoop now db i (r :: rs) = (dbF, n, dg :: ds, evs) := by
        simp only [upsertLoop, hpr, hrec]
      rw [hstep]
      refine ⟨?_, ih2', ?_⟩
      · show n + (ds.length + 1) = rs.length + 1
        omega
      · intro d hd
        rcases List.mem_cons.mp hd with rfl | hd2
        · refine ⟨0, by simp, ?_⟩
          have hdg := processRow_diag now db i r db1 d hpr
          rw [hdg]
          rfl
        · obtain ⟨j, hj, hdj⟩ := ih3' d hd2
          refine ⟨j + 1, by simpa using Nat.succ_lt_succ hj, ?_⟩
          rw [hdj]
          have : i + 1 + j = i + (j + 1) := by omega
          rw [this]
          rfl

theorem ensureIndexEvents_no_write (db : DB) :
    ∀ e ∈ ensureIndexEvents db, isWriteEv e = false := by
  intro e he
  unfold ensureIndexEvents at he
  split at he
  · rcases List.mem_cons.mp he with rfl | he2
    · rfl
    · simp at he2
  · split at he
    · rcases List.mem_cons.mp he with rfl | he2
      · rfl
      · simp at he2
    · rcases List.mem_cons.mp he with rfl | he2
      · rfl
      · rcases List.mem_cons.mp he2 with rfl | he3
        · rfl
        · rcases List.mem_cons.mp he3 with rfl | he4
          · rfl
          · rcases List.mem_cons.mp he4 with rfl | he5
            · rfl
            · rcases List.mem_cons.mp he5 with rfl | he6
              · rfl
              · simp at he6

theorem dropWhile_append_of_all {l1 l2 : List Ev} {p : Ev → Bool}
    (h : ∀ e ∈ l1, p e = true) : (l1 ++ l2).dropWhile p = l2.dropWhile p := by
  induction l1 with
  | nil => rfl
  | cons a as ihh =>
    rw [List.cons_append, List.dropWhile_cons, if_pos (h a (List.mem_cons_self a as))]
    exact ihh (fun e he => h e (List.mem_cons_of_mem a he))

/-- Claim C6, counterexample: in a two-row batch where both rows are
written, no commit occurs between the two row writes — the claimed per-row
transactions (each row's write committed before the next) are refuted; the
batch is committed once at its end. -/
theorem c6_counterexample_single_batch_commit :
    (upsert_contacts "t" emptyDB [rowEmailA, rowEmailB]).n = 2
    ∧ (upsert_contacts "t" emptyDB [rowEmailA, rowEmailB]).events
        = [Ev.rowWritten 0, Ev.rowWritten 1, Ev.commit, Ev.commit]
    ∧ perRowCommits ((upsert_contacts "t" emptyDB [rowEmailA, rowEmailB]).events) = false := by
  refine ⟨by decide, by decide, by decide⟩

/-- Claim C6 as amended: a storage constraint violation on one row is
caught per row — the offending row is skipped with a diagnostic holding the
1-based row index and the row's best-known name/email, and the batch
continues, so rows written plus rows diagnosed equals the batch size — and
a failure neither aborts the batch nor rolls back earlier rows (the state
threads through every row); however the batch is executed as one
transaction: every commit event comes after all row writes, rather than one
transaction per row. -/
theorem c6_amended_batch_error_isolation (now : String) (db : DB) (rows : List Row)
    (d : Diag) (hd : d ∈ (upsert_contacts now db rows).diags) :
    (upsert_contacts now db rows).n + (upsert_contacts now db rows).diags.length = rows.length
    ∧ noWriteAfterCommit (upsert_contacts now db rows).events = true
    ∧ ∃ j, ∃ hj : j < rows.length, d = rowDiag j (rows.get ⟨j, hj⟩) := by
  obtain ⟨h1, h2, h3⟩ := upsertLoop_props now rows db 0
  refine ⟨h1, ?_, ?_⟩
  · show noWriteAfterCommit ((upsertLoop now db 0 rows).2.2.2 ++ [Ev.commit]
      ++ ensureIndexEvents (upsertLoop now db 0 rows).1) = true
    unfold noWriteAfterCommit
    rw [List.append_assoc]
    rw [dropWhile_append_of_all (fun e he => by
      rw [h2 e he]
      rfl)]
    rw [List.singleton_append, List.dropWhile_cons]
    have hcp : (decide (¬ isCommitEv Ev.commit = true)) = false := by decide
    rw [hcp, if_neg Bool.false_ne_true]
    rw [List.all_cons]
    have hcw : (decide (¬ isWriteEv Ev.commit = true)) = true := by decide
    rw [hcw, Bool.true_and]
    rw [List.all_eq_true]
    intro e he
    have := ensureIndexEvents_no_write (upsertLoop now db 0 rows).1 e he
    simp [this]
  · have hd' : d ∈ (upsertLoop now db 0 rows).2.2.1 := hd
    obtain ⟨j, hj, hdj⟩ := h3 d hd'
    rw [Nat.zero_add] at hdj
    exact ⟨j, hj, hdj⟩

/-- Claim C6 witness: a batch whose single row fails with a dedupe-key
uniqueness violation on its `UPDATE`. -/
theorem c6_amended_batch_error_isolation_witness :
    (rowDiag 0 rowClash ∈ (upsert_contacts "t" dbKeyClash [rowClash]).diags)
    ∧ ((upsert_contacts "t" dbKeyClash [rowClash]).n
          + (upsert_contacts "t" dbKeyClash [rowClash]).diags.length = [rowClash].length
      ∧ noWriteAfterCommit (upsert_contacts "t" dbKeyClash [rowClash]).events = true
      ∧ ∃ j, ∃ hj : j < [rowClash].length,
          rowDiag 0 rowClash = rowDiag j ([rowClash].get ⟨j, hj⟩)) :=
  ⟨by decide, c6_amended_batch_error_isolation "t" dbKeyClash [rowClash]
    (rowDiag 0 rowClash) (by decide)⟩

end CRM
